import Mathlib

set_option linter.unusedVariables false

/-!
Shallow embedding of the SDF kinematic-tree assembler of
dart/utils/sdf/SdfParser.cpp.

The parser consumes XML-like link and joint elements, builds two
name-keyed registries (links by name, joints by child-link name), and
assembles a skeleton by repeatedly asking for the next buildable
joint/body pair.  Transforms, scalar values and shapes are only ever
constructed and carried around by this code, never inspected, so they
are modelled as free terms with decidable equality.
-/

/-- Abstract rigid transform (Eigen Isometry3d).  The parser only builds
identity transforms, reads raw poses from the file, composes and
inverts; it never inspects a transform, so transforms are free terms. -/
inductive Transform where
  | ident : Transform
  | raw : Nat → Transform
  | mul : Transform → Transform → Transform
  | inv : Transform → Transform
deriving DecidableEq, Repr

/-- Abstract scalar (C++ double): either a literal read from the file, a
doubling (sphere radius to diameter), or a library default the parser
never computes itself. -/
inductive Val where
  | lit : ℚ → Val
  | dbl : Val → Val
  | defaultVal : String → Val
deriving DecidableEq, Repr

/-- Abstract 3-vector: raw components from the file, or a transform
applied to a vector (axis in parent model frame). -/
inductive Vec3 where
  | mk : Val → Val → Val → Vec3
  | app : Transform → Vec3 → Vec3
deriving DecidableEq, Repr

/-- Structured diagnostics: every discard, warning and abort of the
parser is recorded as one of these instead of raw console text. -/
inductive Diag where
  | duplicateLinkName (link : String)
  | jointMissingChild (joint : String)
  | duplicateChildClaim (newJoint oldJoint child : String)
  | missingParentLink (link joint : String)
  | missingChildLink (link joint : String)
  | unsupportedLinkType (t : String)
  | unsupportedJointType (t joint : String)
  | unknownSoftShape
  | meshLoadFailure (uri : String)
  | invalidShapeType
  | badVersion (version : String)
deriving DecidableEq, Repr

/-- Constructed shape geometry, mirroring the branches of
SdfParser::readShape: box, sphere-as-ellipsoid, cylinder, plane-as-box,
mesh. -/
inductive GeomR where
  | box (size : Vec3)
  | ellipsoid (sx sy sz : Val)
  | cylinder (radius height : Val)
  | planeBox (size : Vec3)
  | mesh (uri : String) (scale : Vec3)
deriving DecidableEq, Repr

/-- A constructed shape: geometry plus the optional local pose set by
setLocalTransform. -/
structure Shape where
  geom : GeomR
  localTransform : Option Transform
deriving DecidableEq, Repr

/-- Moment-of-inertia state of a body: left at the library default,
set explicitly from the six file values, or set from the entries of
computeInertia applied to a shape and the current mass (readBodyNode
copies the six entries of that matrix; the matrix itself is computed
by the excluded shape classes, so we record its two inputs). -/
inductive Moment where
  | defaultMoment
  | explicitMoment (ixx iyy izz ixy ixz iyz : Val)
  | shapeMoment (s : Shape) (mass : Val)
deriving DecidableEq, Repr

/-- Centre-of-mass state: library default or the translation of a pose
read from the inertial element. -/
inductive Com where
  | defaultCom
  | translationOf (t : Transform)
deriving DecidableEq, Repr

/-- Inertial data of a body (dynamics::Inertia as used by readBodyNode). -/
structure Inertia where
  mass : Val
  com : Com
  moment : Moment
deriving DecidableEq, Repr

def defaultInertia : Inertia :=
  { mass := Val.defaultVal "mass", com := Com.defaultCom,
    moment := Moment.defaultMoment }

/-- BodyNode::Properties as populated by readBodyNode.  gravityMode is
none when the file leaves the library default. -/
structure BodyProps where
  name : String
  gravityMode : Option Bool
  inertia : Inertia
  vizShapes : List Shape
  colShapes : List Shape
deriving DecidableEq, Repr

/-- Symbolic soft-body unique properties built by readSoftBodyNode:
which helper made them, with its inputs, plus the optional kv, ke and
damp overrides. -/
inductive SoftGeomR where
  | boxProps (size : Vec3) (pose : Transform) (frags : Vec3) (totalMass : Val)
  | ellipsoidProps (size : Vec3) (nSlices nStacks totalMass : Val)
  | cylinderProps (radius height nSlices nStacks nRings totalMass : Val)
  | defaultProps
deriving DecidableEq, Repr

structure SoftProps where
  geom : SoftGeomR
  kv : Option Val
  ke : Option Val
  damp : Option Val
deriving DecidableEq, Repr

/-- SdfParser::SDFBodyNode: parsed link record.  type is the empty
string for a rigid body and the string soft for a deformable body. -/
structure SDFBodyNode where
  properties : BodyProps
  initTransform : Transform
  type : String
  soft : Option SoftProps
deriving DecidableEq, Repr

/-- Axis data produced by readAxisElement: the (possibly reframed) xyz
vector and the optional damping and limits. -/
structure AxisR where
  axis : Vec3
  damping : Option Val
  lower : Option Val
  upper : Option Val
deriving DecidableEq, Repr

/-- Type-specific joint properties built by the readXxxJoint helpers of
the five joint types readJoint dispatches on, plus the free-joint
properties used for synthesized roots. -/
inductive JointPayload where
  | prismatic (a : AxisR)
  | revolute (a : AxisR)
  | screw (a : AxisR) (pitch : Option Val)
  | universal (a1 a2 : AxisR)
  | ball
  | free
deriving DecidableEq, Repr

/-- Joint::Properties as carried by an SDFJoint. -/
structure JointProps where
  name : String
  tParentBodyToJoint : Transform
  tChildBodyToJoint : Transform
  payload : JointPayload
deriving DecidableEq, Repr

/-- SdfParser::SDFJoint: parsed joint record. -/
structure SDFJoint where
  properties : JointProps
  type : String
  parentName : String
  childName : String
deriving DecidableEq, Repr

/-! ## Ordered maps

BodyMap and JointMap are std::map of string keys: association lists
kept in ascending key order by insertion; lookup returns the first
matching entry and erase removes the keyed entry. -/

abbrev BodyMap : Type := List (String × SDFBodyNode)

abbrev JointMap : Type := List (String × SDFJoint)

/-- Lookup in an ordered map (std::map::find). -/
def mfind {α : Type} (m : List (String × α)) (k : String) : Option α :=
  match m with
  | [] => none
  | (k', v) :: rest => if k' = k then some v else mfind rest k

/-- Lexicographic comparison of character lists, the std::string
operator-less-than that orders a std::map. -/
def charListLt : List Char → List Char → Bool
  | [], [] => false
  | [], _ :: _ => true
  | _ :: _, [] => false
  | a :: as, b :: bs =>
    if a.val < b.val then true
    else if b.val < a.val then false
    else charListLt as bs

/-- Lexicographic string comparison. -/
def strLt (a b : String) : Bool := charListLt a.data b.data

/-- Sorted insertion (std::map operator[] on an absent key). -/
def minsert {α : Type} (k : String) (v : α) :
    List (String × α) → List (String × α)
  | [] => [(k, v)]
  | (k', v') :: rest =>
    if strLt k k' then (k, v) :: (k', v') :: rest
    else (k', v') :: minsert k v rest

/-- Erase by key (std::map::erase of a valid iterator). -/
def merase {α : Type} (m : List (String × α)) (k : String) :
    List (String × α) :=
  m.filter (fun e => e.1 ≠ k)

/-! ## Input records

The format-extraction layer (tinyxml2 and the getValue helpers) is
external; an XML element is modelled as the record of the attributes
and child elements the parser actually reads.  An absent optional
element is none.  Elements whose getValue is called unconditionally are
plain fields.  C++ assert(0) failures (debug abort) are modelled by
returning none from the reading function. -/

/-- The geometry child of a visual or collision element. -/
inductive GeomX where
  | box (size : Vec3)
  | sphere (radius : Val)
  | cylinder (radius length : Val)
  | plane (sx sy : Val)
  | mesh (uri : String) (scale : Vec3) (loadable : Bool)
  | invalid
deriving DecidableEq, Repr

/-- A visual or collision element: geometry plus optional pose. -/
structure ShapeX where
  geometry : GeomX
  pose : Option Transform
deriving DecidableEq, Repr

/-- The inertia child of an inertial element (six moments, read
unconditionally when the element is present). -/
structure InertiaX where
  ixx : Val
  iyy : Val
  izz : Val
  ixy : Val
  ixz : Val
  iyz : Val
deriving DecidableEq, Repr

/-- The inertial element of a link. -/
structure InertialX where
  mass : Option Val
  pose : Option Transform
  inertia : Option InertiaX
deriving DecidableEq, Repr

/-- The geometry of a soft_shape element. -/
inductive SoftGeomX where
  | box (size frags : Vec3)
  | ellipsoid (size : Vec3) (nSlices nStacks : Val)
  | cylinder (radius height nSlices nStacks nRings : Val)
  | unknown
deriving DecidableEq, Repr

/-- The soft_shape element of a link. -/
structure SoftShapeX where
  totalMass : Val
  pose : Option Transform
  geometry : SoftGeomX
  kv : Option Val
  ke : Option Val
  damp : Option Val
deriving DecidableEq, Repr

/-- A link element. -/
structure LinkXml where
  name : String
  gravity : Option Bool
  pose : Option Transform
  visuals : List ShapeX
  collisions : List ShapeX
  inertial : Option InertialX
  softShape : Option SoftShapeX
deriving DecidableEq, Repr

/-- The axis (or axis2) element of a joint. -/
structure AxisX where
  useParentModelFrame : Option Bool
  xyz : Vec3
  damping : Option Val
  lower : Option Val
  upper : Option Val
deriving DecidableEq, Repr

/-- A joint element. -/
structure JointXml where
  name : String
  jtype : String
  parent : Option String
  child : Option String
  pose : Option Transform
  axis : Option AxisX
  axis2 : Option AxisX
  threadPitch : Option Val
deriving DecidableEq, Repr

/-! ## Shape and body reading -/

/-- SdfParser::readShape.  none models the nullptr result (invalid
geometry type, failed mesh load). -/
def readShape (s : ShapeX) : Option Shape :=
  match s.geometry with
  | GeomX.box size => some { geom := GeomR.box size, localTransform := s.pose }
  | GeomX.sphere r =>
    some { geom := GeomR.ellipsoid (Val.dbl r) (Val.dbl r) (Val.dbl r),
           localTransform := s.pose }
  | GeomX.cylinder r h =>
    some { geom := GeomR.cylinder r h, localTransform := s.pose }
  | GeomX.plane sx sy =>
    some { geom := GeomR.planeBox (Vec3.mk sx sy (Val.lit (1/1000))),
           localTransform := s.pose }
  | GeomX.mesh uri scale loadable =>
    if loadable then some { geom := GeomR.mesh uri scale, localTransform := s.pose }
    else none
  | GeomX.invalid => none

/-- SdfParser::readBodyNode: builds the properties and initial world
transform of a rigid link record from its element and the enclosing
skeleton frame. -/
def readBodyNode (l : LinkXml) (skeletonFrame : Transform) : SDFBodyNode :=
  let initTransform : Transform :=
    match l.pose with
    | some w => Transform.mul skeletonFrame w
    | none => skeletonFrame
  let vizShapes : List Shape := l.visuals.filterMap readShape
  let colShapes : List Shape := l.collisions.filterMap readShape
  let inertia : Inertia :=
    match l.inertial with
    | none => defaultInertia
    | some inert =>
      let i1 : Inertia :=
        match inert.mass with
        | some m => { defaultInertia with mass := m }
        | none => defaultInertia
      let i2 : Inertia :=
        match inert.pose with
        | some t => { i1 with com := Com.translationOf t }
        | none => i1
      match inert.inertia with
      | some moi =>
        { i2 with moment :=
            Moment.explicitMoment moi.ixx moi.iyy moi.izz moi.ixy moi.ixz moi.iyz }
      | none =>
        match vizShapes with
        | s0 :: _ => { i2 with moment := Moment.shapeMoment s0 i2.mass }
        | [] => i2
  { properties :=
      { name := l.name, gravityMode := l.gravity, inertia := inertia,
        vizShapes := vizShapes, colShapes := colShapes },
    initTransform := initTransform,
    type := "",
    soft := none }

/-- SdfParser::readSoftBodyNode: a link with a soft_shape element
becomes a soft body record; otherwise it is read as a rigid body. -/
def readSoftBodyNode (l : LinkXml) (skeletonFrame : Transform) : SDFBodyNode :=
  match l.softShape with
  | none => readBodyNode l skeletonFrame
  | some ss =>
    let standard := readBodyNode l skeletonFrame
    let geom : SoftGeomR :=
      match ss.geometry with
      | SoftGeomX.box size frags =>
        SoftGeomR.boxProps size
          (match ss.pose with | some t => t | none => Transform.ident)
          frags ss.totalMass
      | SoftGeomX.ellipsoid size nSlices nStacks =>
        SoftGeomR.ellipsoidProps size nSlices nStacks ss.totalMass
      | SoftGeomX.cylinder r h nSlices nStacks nRings =>
        SoftGeomR.cylinderProps r h nSlices nStacks nRings ss.totalMass
      | SoftGeomX.unknown => SoftGeomR.defaultProps
    { properties := standard.properties,
      initTransform := standard.initTransform,
      type := "soft",
      soft := some { geom := geom, kv := ss.kv, ke := ss.ke, damp := ss.damp } }

/-- The loop body of SdfParser::readAllBodyNodes: read each link,
discard links whose name is already taken (duplicate-name warning),
otherwise insert keyed by name. -/
def readAllBodyNodesAux (skeletonFrame : Transform) :
    List LinkXml → BodyMap → List Diag → BodyMap × List Diag
  | [], m, ds => (m, ds)
  | l :: rest, m, ds =>
    let body := readSoftBodyNode l skeletonFrame
    match mfind m body.properties.name with
    | some _ =>
      readAllBodyNodesAux skeletonFrame rest m
        (ds ++ [Diag.duplicateLinkName body.properties.name])
    | none =>
      readAllBodyNodesAux skeletonFrame rest
        (minsert body.properties.name body m) ds

/-- SdfParser::readAllBodyNodes (with the readSoftBodyNode reader, as
used by readSkeleton). -/
def readAllBodyNodes (links : List LinkXml) (skeletonFrame : Transform) :
    BodyMap × List Diag :=
  readAllBodyNodesAux skeletonFrame links [] []

/-! ## Joint reading -/

/-- readAxisElement: re-expresses the axis in the parent model frame
when requested and collects optional dynamics and limit values. -/
def readAxisElement (a : AxisX) (parentModelFrame : Transform) : AxisR :=
  let useParentModelFrame :=
    match a.useParentModelFrame with
    | some b => b
    | none => false
  let xyz :=
    if useParentModelFrame then Vec3.app parentModelFrame a.xyz else a.xyz
  { axis := xyz, damping := a.damping, lower := a.lower, upper := a.upper }

/-- readRevoluteJoint / readPrismaticJoint / readScrewJoint /
readUniversalJoint / readBallJoint dispatch of SdfParser::readJoint.
A missing required axis element reaches reportMissingElement, whose
assert(0) aborts: modelled as none.  A joint type outside the five
handled ones leaves the properties pointer null, and the unconditional
write to properties->mName dereferences it: also modelled as none. -/
def readJointPayload (j : JointXml) (parentModelFrame : Transform) :
    Option JointPayload :=
  if j.jtype = "prismatic" then
    match j.axis with
    | some a => some (JointPayload.prismatic (readAxisElement a parentModelFrame))
    | none => none
  else if j.jtype = "revolute" then
    match j.axis with
    | some a => some (JointPayload.revolute (readAxisElement a parentModelFrame))
    | none => none
  else if j.jtype = "screw" then
    match j.axis with
    | some a =>
      some (JointPayload.screw (readAxisElement a parentModelFrame) j.threadPitch)
    | none => none
  else if j.jtype = "revolute2" then
    match j.axis, j.axis2 with
    | some a1, some a2 =>
      some (JointPayload.universal (readAxisElement a1 parentModelFrame)
        (readAxisElement a2 parentModelFrame))
    | _, _ => none
  else if j.jtype = "ball" then
    some JointPayload.ball
  else
    none

/-- SdfParser::readJoint.  Looks up the parent link (the sentinel value
world and a missing link both leave the parent iterator at end; a
missing link additionally asserts) and the child link, then sets
parentName and childName: NOTE both conditionals test the PARENT
iterator, exactly as the source does on its line 903, so a joint whose
parent iterator is end gets an empty childName even when its child
lookup succeeded.  none models an assert(0) abort. -/
def readJoint (j : JointXml) (sdfBodyNodes : BodyMap)
    (skeletonFrame : Transform) : Option SDFJoint :=
  let parentLookup : Option (Option (String × SDFBodyNode)) :=
    match j.parent with
    | some strParent =>
      if strParent = "world" then some none
      else
        match mfind sdfBodyNodes strParent with
        | some b => some (some (strParent, b))
        | none => none
    | none => none
  match parentLookup with
  | none => none
  | some parentIt =>
    let childLookup : Option (String × SDFBodyNode) :=
      match j.child with
      | some strChild =>
        match mfind sdfBodyNodes strChild with
        | some b => some (strChild, b)
        | none => none
      | none => none
    match childLookup with
    | none => none
    | some childIt =>
      let parentName : String :=
        match parentIt with
        | none => ""
        | some p => p.1
      let childName : String :=
        match parentIt with
        | none => ""
        | some _ => childIt.1
      let parentWorld : Transform :=
        match parentIt with
        | some p => p.2.initTransform
        | none => Transform.ident
      let childWorld : Transform := childIt.2.initTransform
      let childToJoint : Transform :=
        match j.pose with
        | some t => t
        | none => Transform.ident
      let parentToJoint : Transform :=
        Transform.mul (Transform.inv parentWorld)
          (Transform.mul childWorld childToJoint)
      let parentModelFrame : Transform :=
        Transform.mul (Transform.inv (Transform.mul childWorld childToJoint))
          skeletonFrame
      match readJointPayload j parentModelFrame with
      | none => none
      | some payload =>
        some { properties :=
                 { name := j.name,
                   tParentBodyToJoint := parentToJoint,
                   tChildBodyToJoint := childToJoint,
                   payload := payload },
               type := j.jtype,
               parentName := parentName,
               childName := childName }

/-- The registry loop of SdfParser::readAllJoints, applied to already
read joint records: discard records with an empty childName, discard
records whose childName is already claimed (duplicate diagnostic,
first insertion wins), otherwise insert keyed by childName. -/
def readAllJointsFromRecords : List SDFJoint → JointMap → List Diag →
    JointMap × List Diag
  | [], m, ds => (m, ds)
  | j :: rest, m, ds =>
    if j.childName = "" then
      readAllJointsFromRecords rest m
        (ds ++ [Diag.jointMissingChild j.properties.name])
    else
      match mfind m j.childName with
      | some old =>
        readAllJointsFromRecords rest m
          (ds ++ [Diag.duplicateChildClaim j.properties.name
                    old.properties.name j.childName])
      | none =>
        readAllJointsFromRecords rest (minsert j.childName j m) ds

/-- SdfParser::readAllJoints: read every joint element and feed the
records through the registry loop.  none models a readJoint abort. -/
def readAllJoints (joints : List JointXml) (skeletonFrame : Transform)
    (sdfBodyNodes : BodyMap) : Option (JointMap × List Diag) :=
  match joints.mapM (fun j => readJoint j sdfBodyNodes skeletonFrame) with
  | none => none
  | some records => some (readAllJointsFromRecords records [] [])

/-! ## Skeleton assembly -/

/-- One joint/body pair of the output skeleton, in creation order.
parent is the name of the parent BodyNode, or none for a forest root.
soft records which BodyNode variant the factory instantiated. -/
structure SkelEntry where
  bodyName : String
  soft : Bool
  body : SDFBodyNode
  jointName : String
  jointType : String
  jointTParent : Transform
  jointTChild : Transform
  parent : Option String
deriving DecidableEq, Repr

/-- Skeleton::getBodyNode by name: some name when a body of that name
has been created, none otherwise. -/
def getBodyNode (skel : List SkelEntry) (n : String) : Option String :=
  if skel.any (fun e => e.bodyName = n) then some n else none

/-- The list of tags the joint-type dispatch accepts.
Modelled from the spec: the template SdfParser::createJointAndNodePair
lives in SdfParser.h, which is not part of src/; per the spec the Pair
Factory dispatches on the joint type over Weld, Revolute, Prismatic,
Screw, Universal, Ball, Translational and Free (SDF tags below, with
revolute2 the universal joint), and any unknown type is a fatal
unsupported-joint-type error. -/
def supportedJointTypes : List String :=
  ["weld", "revolute", "prismatic", "screw", "revolute2", "universal",
   "ball", "translational", "free"]

/-- Modelled from the spec: SdfParser::createJointAndNodePair
(template in SdfParser.h, not in src/).  Dispatches on the joint type;
on success appends the new joint/body pair to the skeleton linked to
the given parent (none registers a forest root); an unknown joint type
is a fatal unsupported-joint-type error and nothing is attached. -/
def createJointAndNodePair (soft : Bool) (skel : List SkelEntry)
    (parent : Option String) (joint : SDFJoint) (body : SDFBodyNode) :
    Except Diag (List SkelEntry) :=
  if supportedJointTypes.contains joint.type then
    Except.ok (skel ++
      [{ bodyName := body.properties.name,
         soft := soft,
         body := body,
         jointName := joint.properties.name,
         jointType := joint.type,
         jointTParent := joint.properties.tParentBodyToJoint,
         jointTChild := joint.properties.tChildBodyToJoint,
         parent := parent }])
  else
    Except.error (Diag.unsupportedJointType joint.type joint.properties.name)

/-- SdfParser::createPair: dispatches on the link type tag (empty for a
standard BodyNode, soft for a SoftBodyNode; anything else is a fatal
unsupported-link-type error), then lets the joint-type dispatch build
and attach the pair. -/
def createPair (skel : List SkelEntry) (parent : Option String)
    (newJoint : SDFJoint) (newBody : SDFBodyNode) :
    Except Diag (List SkelEntry) :=
  if newBody.type = "" then
    createJointAndNodePair false skel parent newJoint newBody
  else if newBody.type = "soft" then
    createJointAndNodePair true skel parent newJoint newBody
  else
    Except.error (Diag.unsupportedLinkType newBody.type)

/-- Result of SdfParser::getNextJointAndNodePair.  brk carries the
diagnostic of the fatal lookup failure; cont carries the joint entry
the iterator was redirected to; valid carries the resolved parent and
the child record. -/
inductive NextResult where
  | brk (d : Diag)
  | cont (entry : String × SDFJoint)
  | createFreeRoot
  | valid (parent : Option String) (child : SDFBodyNode)
deriving DecidableEq, Repr

/-- SdfParser::getNextJointAndNodePair: resolve the parent of the
current joint (already-built body, sentinel world or empty name,
redirection to a pending joint, free-root synthesis for an unclaimed
link, or fatal missing-parent), then resolve the child record (fatal
when absent, for every non-early-return path). -/
def getNextJointAndNodePair (sdfBodyNodes : BodyMap) (sdfJoints : JointMap)
    (skel : List SkelEntry) (joint : SDFJoint) : NextResult :=
  let parent := getBodyNode skel joint.parentName
  let step1 : Sum NextResult Bool :=
    if parent = none ∧ joint.parentName ≠ "world" ∧ joint.parentName ≠ "" then
      match mfind sdfJoints joint.parentName with
      | some pj => Sum.inl (NextResult.cont (joint.parentName, pj))
      | none =>
        match mfind sdfBodyNodes joint.parentName with
        | none =>
          Sum.inl (NextResult.brk
            (Diag.missingParentLink joint.parentName joint.properties.name))
        | some _ => Sum.inr true
    else
      Sum.inr false
  match step1 with
  | Sum.inl r => r
  | Sum.inr freeRoot =>
    match mfind sdfBodyNodes joint.childName with
    | none =>
      NextResult.brk (Diag.missingChildLink joint.childName joint.properties.name)
    | some child =>
      if freeRoot then NextResult.createFreeRoot
      else NextResult.valid parent child

/-- The synthesized free root joint for an unclaimed parent link:
Joint::Properties with the name root and the link initial transform as
parent-body-to-joint transform, wrapped as a free-type SDFJoint. -/
def freeRootJoint (rootNode : SDFBodyNode) : SDFJoint :=
  { properties :=
      { name := "root",
        tParentBodyToJoint := rootNode.initTransform,
        tChildBodyToJoint := Transform.ident,
        payload := JointPayload.free },
    type := "free",
    parentName := "",
    childName := "" }

/-- The assembly loop of SdfParser::readSkeleton, lines 288 to 322:
while entries remain, ask for the next joint/body pair; on BREAK stop
(the partially built skeleton is kept and returned); on CONTINUE retry
with the redirected iterator; on CREATE_FREEJOINT_ROOT build a free
root pair for the missing parent and retry without consuming anything;
on VALID build the pair, erase the entry and restart from the first
remaining entry.  The C++ loop has no fuel: it is driven by live
iterator mutation and does not terminate on cyclic parent chains, so
the model takes explicit fuel and returns none when it runs out.  The
Bool of the result is true when the loop emptied the registry and
false when it stopped at an error. -/
def runLoop (sdfBodyNodes : BodyMap) :
    Nat → JointMap → (String × SDFJoint) → List SkelEntry → List Diag →
    Option (Bool × List SkelEntry × List Diag)
  | 0, _, _, _, _ => none
  | fuel + 1, sdfJoints, it, skel, ds =>
    match getNextJointAndNodePair sdfBodyNodes sdfJoints skel it.2 with
    | NextResult.brk d => some (false, skel, ds ++ [d])
    | NextResult.cont entry => runLoop sdfBodyNodes fuel sdfJoints entry skel ds
    | NextResult.createFreeRoot =>
      match mfind sdfBodyNodes it.2.parentName with
      | none => some (false, skel, ds)
      | some rootNode =>
        match createPair skel none (freeRootJoint rootNode) rootNode with
        | Except.error d => some (false, skel, ds ++ [d])
        | Except.ok skel2 => runLoop sdfBodyNodes fuel sdfJoints it skel2 ds
    | NextResult.valid parent child =>
      match createPair skel parent it.2 child with
      | Except.error d => some (false, skel, ds ++ [d])
      | Except.ok skel2 =>
        match merase sdfJoints it.1 with
        | [] => some (true, skel2, ds)
        | e :: rest => runLoop sdfBodyNodes fuel (e :: rest) e skel2 ds

/-- A model element: the skeleton-level input of readSkeleton. -/
structure ModelX where
  name : String
  isStatic : Option Bool
  pose : Option Transform
  links : List LinkXml
  joints : List JointXml
deriving DecidableEq, Repr

/-- The skeleton frame of a model element (makeSkeleton: the model
pose when present, identity otherwise). -/
def modelFrame (m : ModelX) : Transform :=
  match m.pose with
  | some w => w
  | none => Transform.ident

/-- SdfParser::readSkeleton on a model element: read all body records
and all joint records, then run the assembly loop from the first
registry entry.  none models either a readJoint abort or loop fuel
exhaustion. -/
def readSkeletonElem (fuel : Nat) (m : ModelX) :
    Option (Bool × List SkelEntry × List Diag) :=
  let skeletonFrame : Transform := modelFrame m
  let bodiesRead := readAllBodyNodes m.links skeletonFrame
  match readAllJoints m.joints skeletonFrame bodiesRead.1 with
  | none => none
  | some (sdfJoints, ds2) =>
    match sdfJoints with
    | [] => some (true, [], bodiesRead.2 ++ ds2)
    | e :: rest =>
      runLoop bodiesRead.1 fuel (e :: rest) e [] (bodiesRead.2 ++ ds2)

/-! ## File level -/

/-- A world element: physics settings and the contained models. -/
structure WorldX where
  name : String
  maxStepSize : Option Val
  gravity : Option Vec3
  models : List ModelX
deriving DecidableEq, Repr

/-- The root sdf element of a parsed document. -/
structure SdfElementX where
  version : String
  world : Option WorldX
  model : Option ModelX
deriving DecidableEq, Repr

/-- A parsed document: openXMLFile throwing is modelled by feeding the
readers none instead of a document. -/
structure DocX where
  sdf : Option SdfElementX
deriving DecidableEq, Repr

/-- The assembled world: its name, the physics values applied, and one
skeleton result per model element. -/
structure WorldR where
  name : String
  timeStep : Option Val
  gravity : Option Vec3
  skeletons : List (Bool × List SkelEntry × List Diag)
deriving DecidableEq, Repr

/-- SdfParser::readWorld: set name and physics, then read every model. -/
def readWorld (fuel : Nat) (w : WorldX) : Option WorldR :=
  match w.models.mapM (readSkeletonElem fuel) with
  | none => none
  | some skels =>
    some { name := w.name, timeStep := w.maxStepSize, gravity := w.gravity,
           skeletons := skels }

/-- SdfParser::readSdfFile: fail on an unopenable file, a missing sdf
element, a version other than 1.4 or 1.5, or a missing world element;
otherwise read the world. -/
def readSdfFile (fuel : Nat) (doc : Option DocX) : Option WorldR :=
  match doc with
  | none => none
  | some d =>
    match d.sdf with
    | none => none
    | some sdfElement =>
      if sdfElement.version ≠ "1.4" ∧ sdfElement.version ≠ "1.5" then none
      else
        match sdfElement.world with
        | none => none
        | some worldElement => readWorld fuel worldElement

/-- The filename overload of SdfParser::readSkeleton: fail on an
unopenable file, a missing sdf element, a version other than 1.4 or
1.5, or a missing model element; otherwise read the model. -/
def readSkeletonFile (fuel : Nat) (doc : Option DocX) :
    Option (Bool × List SkelEntry × List Diag) :=
  match doc with
  | none => none
  | some d =>
    match d.sdf with
    | none => none
    | some sdfElement =>
      if sdfElement.version ≠ "1.4" ∧ sdfElement.version ≠ "1.5" then none
      else
        match sdfElement.model with
        | none => none
        | some modelElement => readSkeletonElem fuel modelElement


/-! ## Specification predicates and concrete inputs -/

/-- Well-formedness of the link registry as built by readAllBodyNodes:
keys are distinct and each record is keyed by its own name. -/
def BodiesWF (bodies : BodyMap) : Prop :=
  ((bodies.map Prod.fst).Nodup) ∧ ∀ e ∈ bodies, e.2.properties.name = e.1

/-- Well-formedness of the joint registry as built by readAllJoints:
keys are distinct and each record is keyed by its own child name. -/
def RegWF (sdfJoints : JointMap) : Prop :=
  ((sdfJoints.map Prod.fst).Nodup) ∧ ∀ e ∈ sdfJoints, e.1 = e.2.childName

/-- The body names of a skeleton, in creation order. -/
def skelNames (skel : List SkelEntry) : List String :=
  skel.map (fun e => e.bodyName)

/-- Consistency of a skeleton with the link registry: distinct body
names, each entry carrying the registry record of its name. -/
def SkelWF (bodies : BodyMap) (skel : List SkelEntry) : Prop :=
  (skelNames skel).Nodup ∧ ∀ e ∈ skel, mfind bodies e.bodyName = some e.body

/-- No pending child name has been built yet. -/
def Fresh (sdfJoints : JointMap) (skel : List SkelEntry) : Prop :=
  ∀ c ∈ sdfJoints.map Prod.fst, c ∉ skelNames skel

/-- Parent-before-child: every entry with a parent has an
earlier-created entry of that body name. -/
def ParentBefore (skel : List SkelEntry) : Prop :=
  ∀ i : Nat, ∀ p : String, ∀ t : SkelEntry,
    skel.get? i = some t → t.parent = some p →
    ∃ jdx : Nat, ∃ t2 : SkelEntry, jdx < i ∧
      skel.get? jdx = some t2 ∧ t2.bodyName = p

/-- The skeleton entry a successful free-root synthesis appends for an
unclaimed parent link. -/
def rootEntryOf (b : SDFBodyNode) : SkelEntry :=
  { bodyName := b.properties.name,
    soft := b.type = "soft",
    body := b,
    jointName := "root",
    jointType := "free",
    jointTParent := b.initTransform,
    jointTChild := Transform.ident,
    parent := none }

/-- What the materialized pair of a registry joint looks like: joint
data copied from the record, and a parent that is either the named
parent body or none for the world or empty sentinel. -/
def regEntry (e : SkelEntry) (jc : SDFJoint) : Prop :=
  e.jointName = jc.properties.name ∧ e.jointType = jc.type ∧
  e.bodyName = jc.childName ∧
  e.jointTParent = jc.properties.tParentBodyToJoint ∧
  e.jointTChild = jc.properties.tChildBodyToJoint ∧
  (e.parent = some jc.parentName ∨
    (e.parent = none ∧ (jc.parentName = "world" ∨ jc.parentName = "")))

/-- Acyclicity of the pending registry, witnessed by a rank function
that strictly decreases along one redirection step (from a joint to the
pending joint that must build its parent). -/
def Acyclic (sdfJoints : JointMap) : Prop :=
  ∃ rank : String → Nat, ∀ e ∈ sdfJoints,
    (mfind sdfJoints e.2.parentName).isSome = true →
    rank e.2.parentName < rank e.1

/-- The mass used by the inertia branch of readBodyNode: the declared
mass when the inertial element provides one, the default otherwise. -/
def declaredMass (inert : InertialX) : Val :=
  match inert.mass with
  | some m => m
  | none => Val.defaultVal "mass"

/-- A link element with only a name, used by the concrete inputs. -/
def mkLink (n : String) : LinkXml :=
  { name := n, gravity := none, pose := none, visuals := [],
    collisions := [], inertial := none, softShape := none }

/-- A ball-type joint element, used by the concrete inputs. -/
def mkJointB (n p c : String) : JointXml :=
  { name := n, jtype := "ball", parent := some p, child := some c,
    pose := none, axis := none, axis2 := none, threadPitch := none }

/-- A ball-type joint record, used by the concrete inputs. -/
def ballJointR (n p c : String) : SDFJoint :=
  { properties := { name := n, tParentBodyToJoint := Transform.ident,
                    tChildBodyToJoint := Transform.ident,
                    payload := JointPayload.ball },
    type := "ball", parentName := p, childName := c }

/-- A minimal rigid body record, used by the concrete inputs. -/
def bodyOf (n : String) : SDFBodyNode := readBodyNode (mkLink n) Transform.ident

/-- Concrete link registry with links A, B and C. -/
def bodiesABC : BodyMap :=
  [("A", bodyOf "A"), ("B", bodyOf "B"), ("C", bodyOf "C")]

/-- Concrete joint registry whose second entry names a parent that is
neither a link nor a pending child. -/
def regMissingParent : JointMap :=
  [("B", ballJointR "J1" "A" "B"), ("C", ballJointR "Jx" "nope" "C")]

/-- Concrete model with one link and one joint whose parent is the
world sentinel: the spec expects link A as a direct root under J1. -/
def mdlWorldParent : ModelX :=
  { name := "m", isStatic := none, pose := none,
    links := [mkLink "A"],
    joints := [mkJointB "J1" "world" "A"] }

/-- Concrete acyclic chain registry: J2 under B depends on J1 under A. -/
def regChain : JointMap :=
  [("B", ballJointR "J1" "A" "B"), ("C", ballJointR "J2" "B" "C")]

/-- Rank function witnessing acyclicity of regChain: the redirection
from the joint under C to the joint under B decreases it. -/
def rankChain (s : String) : Nat := if s = "C" then 1 else 0

/-- Concrete model with the spec section-8 chain scenario: joints
submitted in the order J2 then J1, with J2 depending on J1. -/
def mdlChain : ModelX :=
  { name := "m", isStatic := none, pose := none,
    links := [mkLink "A", mkLink "B", mkLink "C"],
    joints := [mkJointB "J2" "B" "C", mkJointB "J1" "A" "B"] }

/-- The skeleton the assembler builds from regChain over bodiesABC. -/
def regChainSkel : List SkelEntry :=
  [ rootEntryOf (bodyOf "A"),
    { bodyName := "B", soft := false, body := bodyOf "B", jointName := "J1",
      jointType := "ball", jointTParent := Transform.ident,
      jointTChild := Transform.ident, parent := some "A" },
    { bodyName := "C", soft := false, body := bodyOf "C", jointName := "J2",
      jointType := "ball", jointTParent := Transform.ident,
      jointTChild := Transform.ident, parent := some "B" } ]

/-- The skeleton readSkeleton builds from mdlChain. -/
def chainSkel : List SkelEntry :=
  [ rootEntryOf (bodyOf "A"),
    { bodyName := "B", soft := false, body := bodyOf "B", jointName := "J1",
      jointType := "ball",
      jointTParent := Transform.mul (Transform.inv Transform.ident)
        (Transform.mul Transform.ident Transform.ident),
      jointTChild := Transform.ident, parent := some "A" },
    { bodyName := "C", soft := false, body := bodyOf "C", jointName := "J2",
      jointType := "ball",
      jointTParent := Transform.mul (Transform.inv Transform.ident)
        (Transform.mul Transform.ident Transform.ident),
      jointTChild := Transform.ident, parent := some "B" } ]

/-! ## Basic map lemmas -/

theorem prod_eta {α β : Type} (p : α × β) : (p.1, p.2) = p := rfl

theorem mfind_mem {α : Type} {m : List (String × α)} {k : String} {v : α}
    (h : mfind m k = some v) : (k, v) ∈ m := by
  induction m with
  | nil => simp [mfind] at h
  | cons e rest ih =>
    obtain ⟨k', v'⟩ := e
    rw [mfind] at h
    by_cases hk : k' = k
    · rw [if_pos hk] at h
      cases h
      subst hk
      exact List.mem_cons_self _ _
    · rw [if_neg hk] at h
      exact List.mem_cons_of_mem _ (ih h)

theorem mfind_isSome_of_mem {α : Type} {m : List (String × α)} {k : String}
    {v : α} (h : (k, v) ∈ m) : (mfind m k).isSome = true := by
  induction m with
  | nil => simp at h
  | cons e rest ih =>
    obtain ⟨k', v'⟩ := e
    rw [mfind]
    by_cases hk : k' = k
    · rw [if_pos hk]; rfl
    · rw [if_neg hk]
      rcases List.mem_cons.mp h with h1 | h2
      · cases h1; exact absurd rfl hk
      · exact ih h2

theorem mfind_merase {α : Type} (m : List (String × α)) (k q : String) :
    mfind (merase m k) q = if q = k then none else mfind m q := by
  induction m with
  | nil => simp [merase, mfind]
  | cons e rest ih =>
    obtain ⟨k', v'⟩ := e
    rw [merase] at ih ⊢
    rw [List.filter_cons]
    by_cases he : k' = k
    · have hd : (decide ¬(k', v').1 = k) = false := by simp [he]
      rw [hd]
      simp only [Bool.false_eq_true, if_false]
      rw [ih, mfind]
      by_cases hq : q = k
      · simp [hq]
      · rw [if_neg hq, if_neg hq]
        have : ¬ k' = q := fun hc => hq (by rw [← hc, he])
        rw [if_neg this]
    · have hd : (decide ¬(k', v').1 = k) = true := by simp [he]
      rw [hd]
      simp only [if_true]
      rw [mfind, mfind, ih]
      by_cases hkq : k' = q
      · rw [if_pos hkq, if_pos hkq]
        have : ¬ q = k := fun hc => he (by rw [hkq, hc])
        rw [if_neg this]
      · rw [if_neg hkq, if_neg hkq]

theorem merase_subset {α : Type} {m : List (String × α)} {k : String}
    {e : String × α} (h : e ∈ merase m k) : e ∈ m :=
  List.mem_of_mem_filter h

theorem mem_merase_of_ne {α : Type} {m : List (String × α)} {k : String}
    {e : String × α} (hm : e ∈ m) (hk : e.1 ≠ k) : e ∈ merase m k := by
  apply List.mem_filter.mpr
  exact ⟨hm, by simp [hk]⟩

theorem merase_keys_sub {α : Type} (m : List (String × α)) (k : String) :
    ∀ c ∈ (merase m k).map Prod.fst, c ∈ m.map Prod.fst ∧ c ≠ k := by
  intro c hc
  rcases List.mem_map.mp hc with ⟨e, he, hce⟩
  have he' := merase_subset he
  constructor
  · exact List.mem_map.mpr ⟨e, he', hce⟩
  · have : e.1 ≠ k := by
      have := List.mem_filter.mp he
      simpa using this.2
    rw [← hce]; exact this

theorem merase_nodup_keys {α : Type} {m : List (String × α)} {k : String}
    (h : (m.map Prod.fst).Nodup) : ((merase m k).map Prod.fst).Nodup := by
  induction m with
  | nil => simp [merase]
  | cons e rest ih =>
    rw [List.map_cons, List.nodup_cons] at h
    rw [merase] at ih ⊢
    rw [List.filter_cons]
    by_cases he : e.1 = k
    · have hd : (decide ¬e.1 = k) = false := by simp [he]
      rw [hd]
      simp only [Bool.false_eq_true, if_false]
      exact ih h.2
    · have hd : (decide ¬e.1 = k) = true := by simp [he]
      rw [hd]
      simp only [if_true]
      rw [List.map_cons, List.nodup_cons]
      constructor
      · intro hc
        exact h.1 ((merase_keys_sub rest k _ hc).1)
      · exact ih h.2

theorem mem_minsert {α : Type} (k : String) (v : α)
    (m : List (String × α)) (e : String × α) :
    e ∈ minsert k v m ↔ e = (k, v) ∨ e ∈ m := by
  induction m with
  | nil => simp [minsert]
  | cons e' rest ih =>
    obtain ⟨k', v'⟩ := e'
    rw [minsert]
    by_cases h : strLt k k' = true
    · rw [if_pos h]
      exact List.mem_cons
    · rw [if_neg h]
      rw [List.mem_cons, ih, List.mem_cons]
      tauto

theorem minsert_nodup_keys {α : Type} {k : String} {v : α}
    {m : List (String × α)} (habs : mfind m k = none)
    (h : (m.map Prod.fst).Nodup) :
    (((minsert k v m).map Prod.fst)).Nodup := by
  induction m with
  | nil => simp [minsert]
  | cons e rest ih =>
    obtain ⟨k', v'⟩ := e
    rw [mfind] at habs
    by_cases hk : k' = k
    · rw [if_pos hk] at habs; cases habs
    · rw [if_neg hk] at habs
      rw [List.map_cons, List.nodup_cons] at h
      rw [minsert]
      by_cases hlt : strLt k k' = true
      · rw [if_pos hlt]
        rw [List.map_cons, List.map_cons, List.nodup_cons, List.nodup_cons]
        refine ⟨?_, ?_, h.2⟩
        · intro hc
          rcases List.mem_cons.mp hc with h1 | h2
          · exact hk h1.symm
          · rcases List.mem_map.mp h2 with ⟨⟨a, b⟩, he', hce⟩
            simp only at hce
            subst hce
            have := mfind_isSome_of_mem he'
            rw [habs] at this
            cases this
        · exact h.1
      · rw [if_neg hlt]
        rw [List.map_cons, List.nodup_cons]
        constructor
        · intro hc
          rcases List.mem_map.mp hc with ⟨e', he', hce⟩
          rcases (mem_minsert k v rest e').mp he' with h1 | h2
          · rw [h1] at hce; exact hk hce.symm
          · exact h.1 (List.mem_map.mpr ⟨e', h2, hce⟩)
        · exact ih habs h.2

theorem mfind_minsert_self {α : Type} {k : String} (v : α)
    {m : List (String × α)} (habs : mfind m k = none) :
    mfind (minsert k v m) k = some v := by
  induction m with
  | nil => simp [minsert, mfind]
  | cons e rest ih =>
    obtain ⟨k', v'⟩ := e
    rw [mfind] at habs
    by_cases hk : k' = k
    · rw [if_pos hk] at habs; cases habs
    · rw [if_neg hk] at habs
      rw [minsert]
      by_cases hlt : strLt k k' = true
      · rw [if_pos hlt, mfind, if_pos rfl]
      · rw [if_neg hlt, mfind, if_neg hk]
        exact ih habs

theorem mfind_minsert_other {α : Type} (k : String) (v : α)
    (m : List (String × α)) (q : String) (hq : q ≠ k) :
    mfind (minsert k v m) q = mfind m q := by
  induction m with
  | nil =>
    have hkq : ¬ k = q := fun h => hq h.symm
    simp [minsert, mfind, hkq]
  | cons e rest ih =>
    obtain ⟨k', v'⟩ := e
    rw [minsert]
    by_cases hlt : strLt k k' = true
    · rw [if_pos hlt, mfind, if_neg (fun h : k = q => hq h.symm)]
    · rw [if_neg hlt, mfind, mfind]
      by_cases he : k' = q
      · rw [if_pos he, if_pos he]
      · rw [if_neg he, if_neg he]
        exact ih

/-! ## Claim theorems: version gate, inertia, factory dispatch -/

/-- C9: for every input file whose root sdf element carries a version
attribute that is neither 1.4 nor 1.5, both readSdfFile and the
filename overload of readSkeleton return a failure (none) after the
version check, and no World or Skeleton is constructed. -/
theorem version_gate_rejects (fuel : Nat) (d : DocX) (s : SdfElementX)
    (hs : d.sdf = some s) (h4 : s.version ≠ "1.4") (h5 : s.version ≠ "1.5") :
    readSdfFile fuel (some d) = none ∧ readSkeletonFile fuel (some d) = none := by
  constructor
  · rw [readSdfFile, hs]
    show (if s.version ≠ "1.4" ∧ s.version ≠ "1.5" then none else _) = none
    rw [if_pos ⟨h4, h5⟩]
  · rw [readSkeletonFile, hs]
    show (if s.version ≠ "1.4" ∧ s.version ≠ "1.5" then none else _) = none
    rw [if_pos ⟨h4, h5⟩]

/-- Witness for C9 at version 1.3. -/
theorem version_gate_rejects_witness :
    readSdfFile 1 (some ⟨some ⟨"1.3", none, none⟩⟩) = none ∧
    readSkeletonFile 1 (some ⟨some ⟨"1.3", none, none⟩⟩) = none :=
  version_gate_rejects 1 ⟨some ⟨"1.3", none, none⟩⟩ ⟨"1.3", none, none⟩ rfl
    (by decide) (by decide)

/-- C10: a link whose inertial element has no inertia child but that
has at least one non-null visual shape gets its moment computed from
the first such shape and the declared mass; a link with neither an
explicit moment nor a non-null visual shape keeps the default moment. -/
theorem readBodyNode_moment_policy (l : LinkXml) (frame : Transform) :
    (∀ inert s0 rest, l.inertial = some inert → inert.inertia = none →
      l.visuals.filterMap readShape = s0 :: rest →
      (readBodyNode l frame).properties.inertia.moment =
        Moment.shapeMoment s0 (declaredMass inert)) ∧
    ((∀ inert, l.inertial = some inert → inert.inertia = none) →
      l.visuals.filterMap readShape = [] →
      (readBodyNode l frame).properties.inertia.moment = Moment.defaultMoment) := by
  constructor
  · intro inert s0 rest hin hmoi hviz
    rw [readBodyNode]
    simp only [hin, hmoi, hviz]
    cases hm : inert.mass <;> cases hp : inert.pose <;>
      simp [declaredMass, defaultInertia, hm, hp]
  · intro hnomoi hviz
    rw [readBodyNode]
    cases hin : l.inertial with
    | none => simp [hin, defaultInertia]
    | some inert =>
      have hmoi := hnomoi inert hin
      simp only [hin, hmoi, hviz]
      cases hm : inert.mass <;> cases hp : inert.pose <;>
        simp [defaultInertia, hm, hp]

/-- Witness for C10: a unit box visual and mass 2 produce a
shape-derived moment; a bare link keeps the default moment. -/
theorem readBodyNode_moment_policy_witness :
    (readBodyNode
        ⟨"L", none, none,
         [⟨GeomX.box (Vec3.mk (Val.lit 1) (Val.lit 1) (Val.lit 1)), none⟩],
         [], some ⟨some (Val.lit 2), none, none⟩, none⟩
        Transform.ident).properties.inertia.moment =
      Moment.shapeMoment
        ⟨GeomR.box (Vec3.mk (Val.lit 1) (Val.lit 1) (Val.lit 1)), none⟩
        (Val.lit 2) ∧
    (readBodyNode (mkLink "A") Transform.ident).properties.inertia.moment =
      Moment.defaultMoment := by
  constructor
  · exact (readBodyNode_moment_policy _ Transform.ident).1
      ⟨some (Val.lit 2), none, none⟩
      ⟨GeomR.box (Vec3.mk (Val.lit 1) (Val.lit 1) (Val.lit 1)), none⟩
      [] rfl rfl rfl
  · exact (readBodyNode_moment_policy (mkLink "A") Transform.ident).2
      (fun inert h => by cases h) rfl

/-- C7: a joint record whose type is outside the supported list makes
the Pair Factory fail with the fatal unsupported-joint-type
diagnostic, and the assembly loop stops there with the partial
skeleton unchanged. -/
theorem createPair_unsupported_joint (j : SDFJoint) (b : SDFBodyNode)
    (huns : supportedJointTypes.contains j.type = false)
    (hb : b.type = "" ∨ b.type = "soft") :
    (∀ skel parent, createPair skel parent j b =
      Except.error (Diag.unsupportedJointType j.type j.properties.name)) ∧
    (∀ bodies fuel sdfJoints k skel ds par,
      getNextJointAndNodePair bodies sdfJoints skel j = NextResult.valid par b →
      runLoop bodies (fuel+1) sdfJoints (k, j) skel ds =
        some (false, skel,
          ds ++ [Diag.unsupportedJointType j.type j.properties.name])) := by
  have hcp : ∀ skel parent, createPair skel parent j b =
      Except.error (Diag.unsupportedJointType j.type j.properties.name) := by
    intro skel parent
    rcases hb with hb | hb
    · rw [createPair, if_pos hb, createJointAndNodePair]
      rw [if_neg (by rw [huns]; exact Bool.false_ne_true)]
    · rw [createPair]
      by_cases hb0 : b.type = ""
      · rw [if_pos hb0, createJointAndNodePair]
        rw [if_neg (by rw [huns]; exact Bool.false_ne_true)]
      · rw [if_neg hb0, if_pos hb, createJointAndNodePair]
        rw [if_neg (by rw [huns]; exact Bool.false_ne_true)]
  refine ⟨hcp, ?_⟩
  intro bodies fuel sdfJoints k skel ds par hnext
  rw [runLoop]
  simp only [hnext, hcp skel par]

/-- Witness for C7: a fixed-type joint over a rigid body is rejected
by the factory. -/
theorem createPair_unsupported_joint_witness :
    createPair [] none
      { properties := { name := "Jf", tParentBodyToJoint := Transform.ident,
                        tChildBodyToJoint := Transform.ident,
                        payload := JointPayload.ball },
        type := "fixed", parentName := "A", childName := "B" }
      (bodyOf "B") =
      Except.error (Diag.unsupportedJointType "fixed" "Jf") :=
  (createPair_unsupported_joint _ (bodyOf "B") (by decide) (Or.inl rfl)).1 [] none

/-- C8: createPair dispatches on the link type tag: the empty (rigid)
tag builds a standard BodyNode pair, the soft tag builds the
deformable variant, and any other tag fails with the fatal
unsupported-link-type diagnostic, which stops the assembly loop. -/
theorem createPair_link_dispatch (j : SDFJoint) (b : SDFBodyNode) :
    (b.type = "" → supportedJointTypes.contains j.type = true →
      ∀ skel parent, createPair skel parent j b = Except.ok (skel ++
        [{ bodyName := b.properties.name, soft := false, body := b,
           jointName := j.properties.name, jointType := j.type,
           jointTParent := j.properties.tParentBodyToJoint,
           jointTChild := j.properties.tChildBodyToJoint,
           parent := parent }])) ∧
    (b.type = "soft" → supportedJointTypes.contains j.type = true →
      ∀ skel parent, createPair skel parent j b = Except.ok (skel ++
        [{ bodyName := b.properties.name, soft := true, body := b,
           jointName := j.properties.name, jointType := j.type,
           jointTParent := j.properties.tParentBodyToJoint,
           jointTChild := j.properties.tChildBodyToJoint,
           parent := parent }])) ∧
    (b.type ≠ "" → b.type ≠ "soft" →
      (∀ skel parent, createPair skel parent j b =
        Except.error (Diag.unsupportedLinkType b.type)) ∧
      (∀ bodies fuel sdfJoints k skel ds par,
        getNextJointAndNodePair bodies sdfJoints skel j = NextResult.valid par b →
        runLoop bodies (fuel+1) sdfJoints (k, j) skel ds =
          some (false, skel, ds ++ [Diag.unsupportedLinkType b.type]))) := by
  refine ⟨?_, ?_, ?_⟩
  · intro hb hj skel parent
    rw [createPair, if_pos hb, createJointAndNodePair, if_pos (by rw [hj])]
  · intro hb hj skel parent
    rw [createPair]
    by_cases hb0 : b.type = ""
    · exact absurd (hb0.symm.trans hb) (by decide)
    · rw [if_neg hb0, if_pos hb, createJointAndNodePair, if_pos (by rw [hj])]
  · intro hb0 hbs
    have hcp : ∀ skel parent, createPair skel parent j b =
        Except.error (Diag.unsupportedLinkType b.type) := by
      intro skel parent
      rw [createPair, if_neg hb0, if_neg hbs]
    refine ⟨hcp, ?_⟩
    intro bodies fuel sdfJoints k skel ds par hnext
    rw [runLoop]
    simp only [hnext, hcp skel par]

/-- Witness for C8: the rigid branch succeeds with a standard pair,
the soft branch with a soft pair, and an unknown tag is rejected. -/
theorem createPair_link_dispatch_witness :
    createPair [] none (ballJointR "J1" "A" "B") (bodyOf "B") = Except.ok
      [{ bodyName := "B", soft := false, body := bodyOf "B",
         jointName := "J1", jointType := "ball",
         jointTParent := Transform.ident, jointTChild := Transform.ident,
         parent := none }] ∧
    createPair [] none (ballJointR "J1" "A" "B")
        { bodyOf "B" with type := "x" } =
      Except.error (Diag.unsupportedLinkType "x") := by
  constructor
  · exact (createPair_link_dispatch (ballJointR "J1" "A" "B") (bodyOf "B")).1
      rfl (by decide) [] none
  · exact ((createPair_link_dispatch (ballJointR "J1" "A" "B")
      { bodyOf "B" with type := "x" }).2.2 (by decide) (by decide)).1 [] none

/-- C2 (code evaluation at the failing input): a joint whose parent
element names the world sentinel and whose child element names the
existing link A comes out of readJoint with an empty childName,
because line 903 of the source tests the parent iterator where it
should test the child iterator; readAllJoints then discards it as
missing a child, and the assembled skeleton is empty instead of
containing A as a direct root under J1. -/
theorem worldParent_joint_discarded :
    (readJoint (mkJointB "J1" "world" "A")
        (readAllBodyNodes [mkLink "A"] Transform.ident).1 Transform.ident).map
      (fun j => (j.properties.name, j.parentName, j.childName)) =
      some ("J1", "", "") ∧
    readSkeletonElem 5 mdlWorldParent =
      some (true, [], [Diag.jointMissingChild "J1"]) := by
  constructor
  · rfl
  · rfl

/-! ## Registry lemmas and the duplicate-child policy -/

theorem fromRecords_append (xs ys : List SDFJoint) (m0 : JointMap)
    (ds0 : List Diag) :
    readAllJointsFromRecords (xs ++ ys) m0 ds0 =
      readAllJointsFromRecords ys (readAllJointsFromRecords xs m0 ds0).1
        (readAllJointsFromRecords xs m0 ds0).2 := by
  induction xs generalizing m0 ds0 with
  | nil => simp [readAllJointsFromRecords]
  | cons j rest ih =>
    rw [List.cons_append, readAllJointsFromRecords, readAllJointsFromRecords]
    by_cases he : j.childName = ""
    · rw [if_pos he, if_pos he]
      exact ih _ _
    · rw [if_neg he, if_neg he]
      cases mfind m0 j.childName with
      | none => exact ih _ _
      | some old => exact ih _ _

theorem fromRecords_diag_mono (rs : List SDFJoint) (m0 : JointMap)
    (ds0 : List Diag) (d : Diag) (hd : d ∈ ds0) :
    d ∈ (readAllJointsFromRecords rs m0 ds0).2 := by
  induction rs generalizing m0 ds0 with
  | nil => exact hd
  | cons j rest ih =>
    rw [readAllJointsFromRecords]
    by_cases he : j.childName = ""
    · rw [if_pos he]
      exact ih _ _ (List.mem_append_left _ hd)
    · rw [if_neg he]
      cases mfind m0 j.childName with
      | none => exact ih _ _ hd
      | some old => exact ih _ _ (List.mem_append_left _ hd)

theorem fromRecords_find (c : String) (hc : c ≠ "") (rs : List SDFJoint)
    (m0 : JointMap) (ds0 : List Diag) :
    mfind (readAllJointsFromRecords rs m0 ds0).1 c =
      (match mfind m0 c with
       | some v => some v
       | none => rs.find? (fun x => x.childName == c)) := by
  induction rs generalizing m0 ds0 with
  | nil =>
    rw [readAllJointsFromRecords]
    cases mfind m0 c <;> rfl
  | cons j rest ih =>
    rw [readAllJointsFromRecords]
    by_cases he : j.childName = ""
    · rw [if_pos he]
      rw [ih]
      cases hmc : mfind m0 c with
      | some v => rfl
      | none =>
        have hpj : (j.childName == c) = false := by
          rw [he]
          exact beq_false_of_ne (fun h => hc h.symm)
        rw [List.find?_cons, hpj]
    · rw [if_neg he]
      cases hmj : mfind m0 j.childName with
      | some old =>
        rw [ih]
        cases hmc : mfind m0 c with
        | some v => rfl
        | none =>
          have hne : j.childName ≠ c := by
            intro h
            rw [h, hmc] at hmj
            cases hmj
          have hpj : (j.childName == c) = false := beq_false_of_ne hne
          rw [List.find?_cons, hpj]
      | none =>
        rw [ih]
        by_cases hjc : j.childName = c
        · subst hjc
          rw [mfind_minsert_self j hmj, hmj]
          have hpj : (j.childName == j.childName) = true := beq_self_eq_true _
          rw [List.find?_cons, hpj]
        · rw [mfind_minsert_other j.childName j m0 c
            (fun h => hjc h.symm)]
          cases hmc : mfind m0 c with
          | some v => rfl
          | none =>
            have hpj : (j.childName == c) = false := beq_false_of_ne hjc
            rw [List.find?_cons, hpj]

theorem fromRecords_dup_diag (c : String) (hc : c ≠ "") (rs : List SDFJoint)
    (m0 : JointMap) (ds0 : List Diag)
    (hocc : (mfind m0 c).isSome = true) (r : SDFJoint) (hr : r ∈ rs)
    (hrc : r.childName = c) :
    ∃ old, Diag.duplicateChildClaim r.properties.name old c ∈
      (readAllJointsFromRecords rs m0 ds0).2 := by
  induction rs generalizing m0 ds0 with
  | nil => cases hr
  | cons j rest ih =>
    rw [readAllJointsFromRecords]
    rcases List.mem_cons.mp hr with hr1 | hr2
    · subst hr1
      rw [if_neg (by rw [hrc]; exact hc)]
      rcases Option.isSome_iff_exists.mp (by rw [← hrc] at hocc; exact hocc)
        with ⟨old, hold⟩
      rw [hold]
      refine ⟨old.properties.name, ?_⟩
      rw [hrc] at hold ⊢
      exact fromRecords_diag_mono _ _ _ _
        (List.mem_append_right _ (List.mem_singleton.mpr rfl))
    · by_cases he : j.childName = ""
      · rw [if_pos he]
        exact ih _ _ hocc hr2
      · rw [if_neg he]
        cases hmj : mfind m0 j.childName with
        | some old => exact ih _ _ hocc hr2
        | none =>
          have hne : c ≠ j.childName := by
            intro h
            rw [← h, ] at hmj
            rw [hmj] at hocc
            cases hocc
          rw [← mfind_minsert_other j.childName j m0 c hne] at hocc
          exact ih _ _ hocc hr2

theorem fromRecords_wf (rs : List SDFJoint) (m0 : JointMap) (ds0 : List Diag)
    (hnd : (m0.map Prod.fst).Nodup) (hkey : ∀ e ∈ m0, e.1 = e.2.childName) :
    RegWF (readAllJointsFromRecords rs m0 ds0).1 := by
  induction rs generalizing m0 ds0 with
  | nil => exact ⟨hnd, hkey⟩
  | cons j rest ih =>
    rw [readAllJointsFromRecords]
    by_cases he : j.childName = ""
    · rw [if_pos he]
      exact ih _ _ hnd hkey
    · rw [if_neg he]
      cases hmj : mfind m0 j.childName with
      | some old => exact ih _ _ hnd hkey
      | none =>
        refine ih _ _ (minsert_nodup_keys hmj hnd) ?_
        intro e he2
        rcases (mem_minsert _ _ _ _).mp he2 with h1 | h2
        · rw [h1]
        · exact hkey e h2

theorem readAllBodyNodesAux_wf (frame : Transform) (links : List LinkXml)
    (m0 : BodyMap) (ds0 : List Diag)
    (hnd : (m0.map Prod.fst).Nodup)
    (hkey : ∀ e ∈ m0, e.2.properties.name = e.1) :
    BodiesWF (readAllBodyNodesAux frame links m0 ds0).1 := by
  induction links generalizing m0 ds0 with
  | nil => exact ⟨hnd, hkey⟩
  | cons l rest ih =>
    rw [readAllBodyNodesAux]
    cases hml : mfind m0 (readSoftBodyNode l frame).properties.name with
    | some old => exact ih _ _ hnd hkey
    | none =>
      refine ih _ _ (minsert_nodup_keys hml hnd) ?_
      intro e he2
      rcases (mem_minsert _ _ _ _).mp he2 with h1 | h2
      · rw [h1]
      · exact hkey e h2

theorem readAllBodyNodes_wf (links : List LinkXml) (frame : Transform) :
    BodiesWF (readAllBodyNodes links frame).1 :=
  readAllBodyNodesAux_wf frame links [] [] List.nodup_nil (by intro e he; cases he)

theorem readAllJoints_wf (joints : List JointXml) (frame : Transform)
    (bodies : BodyMap) (m : JointMap) (ds : List Diag)
    (h : readAllJoints joints frame bodies = some (m, ds)) : RegWF m := by
  rw [readAllJoints] at h
  cases hm : joints.mapM (fun j => readJoint j bodies frame) with
  | none => rw [hm] at h; cases h
  | some records =>
    rw [hm] at h
    have h' := Option.some.inj h
    have hres := fromRecords_wf records [] [] List.nodup_nil
      (by intro e he; cases he)
    rw [h'] at hres
    exact hres

/-- C5: of two joint records claiming the same child name, the
registry keeps exactly the one that comes first in input order, the
later one is discarded with a duplicate-child-claim diagnostic, and
the claimed child has exactly one registry entry (the registry is
keyed by child name).  The insertion test uses only a keyed lookup, so
no map-iteration order is involved. -/
theorem duplicate_child_first_wins (rs pre post : List SDFJoint)
    (r : SDFJoint) (c : String) (hsplit : rs = pre ++ r :: post)
    (hr : r.childName = c) (hc : c ≠ "")
    (hpre : ∃ r1 ∈ pre, r1.childName = c) :
    mfind (readAllJointsFromRecords rs [] []).1 c =
      rs.find? (fun x => x.childName == c) ∧
    (∃ old, Diag.duplicateChildClaim r.properties.name old c ∈
      (readAllJointsFromRecords rs [] []).2) ∧
    ((readAllJointsFromRecords rs [] []).1.map Prod.fst).count c = 1 := by
  have hfind : mfind (readAllJointsFromRecords rs [] []).1 c =
      rs.find? (fun x => x.childName == c) := by
    rw [fromRecords_find c hc rs [] []]
    rfl
  have hfound : (rs.find? (fun x => x.childName == c)).isSome = true := by
    rcases hpre with ⟨r1, hr1, hr1c⟩
    apply List.find?_isSome.mpr
    refine ⟨r1, ?_, ?_⟩
    · rw [hsplit]; exact List.mem_append_left _ hr1
    · rw [hr1c]; exact beq_self_eq_true c
  refine ⟨hfind, ?_, ?_⟩
  · rcases hpre with ⟨r1, hr1, hr1c⟩
    rw [hsplit, fromRecords_append]
    have hocc : (mfind (readAllJointsFromRecords pre [] []).1 c).isSome = true := by
      rw [fromRecords_find c hc pre [] []]
      apply List.find?_isSome.mpr
      exact ⟨r1, hr1, by rw [hr1c]; exact beq_self_eq_true c⟩
    exact fromRecords_dup_diag c hc (r :: post) _ _ hocc r
      (List.mem_cons_self _ _) hr
  · have hwf := fromRecords_wf rs [] [] List.nodup_nil (by intro e he; cases he)
    have hmem : c ∈ (readAllJointsFromRecords rs [] []).1.map Prod.fst := by
      have hsome : (mfind (readAllJointsFromRecords rs [] []).1 c).isSome = true := by
        rw [hfind]; exact hfound
      rcases Option.isSome_iff_exists.mp hsome with ⟨v, hv⟩
      exact List.mem_map.mpr ⟨(c, v), mfind_mem hv, rfl⟩
    exact List.count_eq_one_of_mem hwf.1 hmem

/-- Witness for C5: records J1 and J2 both claiming child A; J1 wins,
J2 is discarded with a diagnostic, and A has one registry entry. -/
theorem duplicate_child_first_wins_witness :
    mfind (readAllJointsFromRecords
        [ballJointR "J1" "B" "A", ballJointR "J2" "C" "A"] [] []).1 "A" =
      [ballJointR "J1" "B" "A", ballJointR "J2" "C" "A"].find?
        (fun x => x.childName == "A") ∧
    (∃ old, Diag.duplicateChildClaim "J2" old "A" ∈
      (readAllJointsFromRecords
        [ballJointR "J1" "B" "A", ballJointR "J2" "C" "A"] [] []).2) ∧
    ((readAllJointsFromRecords
        [ballJointR "J1" "B" "A", ballJointR "J2" "C" "A"] [] []).1.map
        Prod.fst).count "A" = 1 :=
  duplicate_child_first_wins
    [ballJointR "J1" "B" "A", ballJointR "J2" "C" "A"]
    [ballJointR "J1" "B" "A"] [] (ballJointR "J2" "C" "A") "A" rfl rfl
    (by decide) ⟨ballJointR "J1" "B" "A", List.mem_singleton.mpr rfl, rfl⟩

/-! ## Assembler lemmas -/

theorem skelNames_append (S : List SkelEntry) (e : SkelEntry) :
    skelNames (S ++ [e]) = skelNames S ++ [e.bodyName] := by
  rw [skelNames, skelNames, List.map_append]
  rfl

theorem mem_skelNames {S : List SkelEntry} {n : String} :
    n ∈ skelNames S ↔ ∃ e ∈ S, e.bodyName = n := by
  rw [skelNames]
  constructor
  · intro h
    rcases List.mem_map.mp h with ⟨e, he, hn⟩
    exact ⟨e, he, hn⟩
  · intro ⟨e, he, hn⟩
    exact List.mem_map.mpr ⟨e, he, hn⟩

theorem getBodyNode_none {S : List SkelEntry} {n : String}
    (h : n ∉ skelNames S) : getBodyNode S n = none := by
  rw [getBodyNode, if_neg]
  intro hany
  rcases List.any_eq_true.mp hany with ⟨e, he, hn⟩
  exact h (mem_skelNames.mpr ⟨e, he, of_decide_eq_true hn⟩)

theorem getBodyNode_of_mem {S : List SkelEntry} {n : String}
    (h : n ∈ skelNames S) : getBodyNode S n = some n := by
  rw [getBodyNode, if_pos]
  rcases mem_skelNames.mp h with ⟨e, he, hn⟩
  exact List.any_eq_true.mpr ⟨e, he, decide_eq_true hn⟩

theorem getBodyNode_some {S : List SkelEntry} {n q : String}
    (h : getBodyNode S n = some q) : q = n ∧ n ∈ skelNames S := by
  rw [getBodyNode] at h
  by_cases hany : S.any (fun e => e.bodyName = n) = true
  · rw [if_pos hany] at h
    rcases List.any_eq_true.mp hany with ⟨e, he, hn⟩
    exact ⟨(Option.some.inj h).symm,
      mem_skelNames.mpr ⟨e, he, of_decide_eq_true hn⟩⟩
  · rw [if_neg hany] at h
    cases h

theorem getBodyNode_none_iff {S : List SkelEntry} {n : String} :
    getBodyNode S n = none ↔ n ∉ skelNames S := by
  constructor
  · intro h hn
    rw [getBodyNode_of_mem hn] at h
    cases h
  · exact getBodyNode_none

/-- Inversion of the redirection result. -/
theorem getNext_cont {bodies : BodyMap} {P : JointMap} {S : List SkelEntry}
    {j : SDFJoint} {e : String × SDFJoint}
    (h : getNextJointAndNodePair bodies P S j = NextResult.cont e) :
    e.1 = j.parentName ∧ mfind P j.parentName = some e.2 := by
  simp only [getNextJointAndNodePair] at h
  by_cases hcond : getBodyNode S j.parentName = none ∧
      j.parentName ≠ "world" ∧ j.parentName ≠ ""
  · rw [if_pos hcond] at h
    cases hpj : mfind P j.parentName with
    | some pj =>
      rw [hpj] at h
      cases h
      exact ⟨rfl, rfl⟩
    | none =>
      rw [hpj] at h
      cases hpb : mfind bodies j.parentName with
      | none =>
        rw [hpb] at h
        cases h
      | some b =>
        rw [hpb] at h
        cases hcb : mfind bodies j.childName with
        | none => rw [hcb] at h; cases h
        | some child => rw [hcb] at h; cases h
  · rw [if_neg hcond] at h
    cases hcb : mfind bodies j.childName with
    | none => rw [hcb] at h; cases h
    | some child => rw [hcb] at h; cases h

/-- Inversion of the free-root-synthesis result. -/
theorem getNext_createFreeRoot {bodies : BodyMap} {P : JointMap}
    {S : List SkelEntry} {j : SDFJoint}
    (h : getNextJointAndNodePair bodies P S j = NextResult.createFreeRoot) :
    getBodyNode S j.parentName = none ∧
    j.parentName ≠ "world" ∧ j.parentName ≠ "" ∧
    mfind P j.parentName = none ∧
    (∃ b, mfind bodies j.parentName = some b) ∧
    (∃ c, mfind bodies j.childName = some c) := by
  simp only [getNextJointAndNodePair] at h
  by_cases hcond : getBodyNode S j.parentName = none ∧
      j.parentName ≠ "world" ∧ j.parentName ≠ ""
  · rw [if_pos hcond] at h
    cases hpj : mfind P j.parentName with
    | some pj => rw [hpj] at h; cases h
    | none =>
      rw [hpj] at h
      cases hpb : mfind bodies j.parentName with
      | none => rw [hpb] at h; cases h
      | some b =>
        rw [hpb] at h
        cases hcb : mfind bodies j.childName with
        | none => rw [hcb] at h; cases h
        | some child =>
          rw [hcb] at h
          exact ⟨hcond.1, hcond.2.1, hcond.2.2, rfl, ⟨b, rfl⟩, ⟨child, rfl⟩⟩
  · rw [if_neg hcond] at h
    cases hcb : mfind bodies j.childName with
    | none => rw [hcb] at h; cases h
    | some child => rw [hcb] at h; cases h

/-- Inversion of the buildable result. -/
theorem getNext_valid {bodies : BodyMap} {P : JointMap} {S : List SkelEntry}
    {j : SDFJoint} {par : Option String} {child : SDFBodyNode}
    (h : getNextJointAndNodePair bodies P S j = NextResult.valid par child) :
    par = getBodyNode S j.parentName ∧
    mfind bodies j.childName = some child ∧
    (par = none → j.parentName = "world" ∨ j.parentName = "") := by
  simp only [getNextJointAndNodePair] at h
  by_cases hcond : getBodyNode S j.parentName = none ∧
      j.parentName ≠ "world" ∧ j.parentName ≠ ""
  · rw [if_pos hcond] at h
    cases hpj : mfind P j.parentName with
    | some pj => rw [hpj] at h; cases h
    | none =>
      rw [hpj] at h
      cases hpb : mfind bodies j.parentName with
      | none => rw [hpb] at h; cases h
      | some b =>
        rw [hpb] at h
        cases hcb : mfind bodies j.childName with
        | none => rw [hcb] at h; cases h
        | some c => rw [hcb] at h; cases h
  · rw [if_neg hcond] at h
    cases hcb : mfind bodies j.childName with
    | none => rw [hcb] at h; cases h
    | some c =>
      rw [hcb] at h
      cases h
      refine ⟨rfl, rfl, ?_⟩
      intro hnone
      by_cases hw : j.parentName = "world"
      · exact Or.inl hw
      · by_cases he : j.parentName = ""
        · exact Or.inr he
        · exact absurd ⟨hnone, hw, he⟩ hcond

/-- Characterization of a successful createPair. -/
theorem createPair_ok {S : List SkelEntry} {par : Option String}
    {j : SDFJoint} {b : SDFBodyNode} {S2 : List SkelEntry}
    (h : createPair S par j b = Except.ok S2) :
    S2 = S ++
      [{ bodyName := b.properties.name, soft := decide (b.type = "soft"),
         body := b, jointName := j.properties.name, jointType := j.type,
         jointTParent := j.properties.tParentBodyToJoint,
         jointTChild := j.properties.tChildBodyToJoint, parent := par }] := by
  rw [createPair] at h
  by_cases hb0 : b.type = ""
  · rw [if_pos hb0, createJointAndNodePair] at h
    by_cases hj : supportedJointTypes.contains j.type = true
    · rw [if_pos hj] at h
      have hd : decide (b.type = "soft") = false := by
        rw [hb0]; rfl
      rw [hd]
      exact (Except.ok.inj h).symm
    · rw [if_neg hj] at h
      cases h
  · rw [if_neg hb0] at h
    by_cases hbs : b.type = "soft"
    · rw [if_pos hbs, createJointAndNodePair] at h
      by_cases hj : supportedJointTypes.contains j.type = true
      · rw [if_pos hj] at h
        have hd : decide (b.type = "soft") = true := by
          rw [hbs]; rfl
        rw [hd]
        exact (Except.ok.inj h).symm
      · rw [if_neg hj] at h
        cases h
    · rw [if_neg hbs] at h
      cases h

/-- The entry appended for a synthesized free root is exactly
rootEntryOf of the orphaned link record. -/
theorem createPair_root_ok {S : List SkelEntry} {b : SDFBodyNode}
    {S2 : List SkelEntry}
    (h : createPair S none (freeRootJoint b) b = Except.ok S2) :
    S2 = S ++ [rootEntryOf b] := by
  rw [createPair_ok h]
  rfl

theorem ParentBefore_append {S : List SkelEntry} {e : SkelEntry}
    (hpb : ParentBefore S)
    (he : ∀ p, e.parent = some p → p ∈ skelNames S) :
    ParentBefore (S ++ [e]) := by
  intro i p t hget hp
  by_cases hlt : i < S.length
  · rw [List.get?_append hlt] at hget
    rcases hpb i p t hget hp with ⟨jdx, t2, hj, hg2, hn2⟩
    have hjlt : jdx < S.length := by
      rcases List.get?_eq_some.mp hg2 with ⟨hh, _⟩
      exact hh
    exact ⟨jdx, t2, hj, by rw [List.get?_append hjlt]; exact hg2, hn2⟩
  · have hle : S.length ≤ i := Nat.le_of_not_lt hlt
    have hilen : i < S.length + 1 := by
      rcases List.get?_eq_some.mp hget with ⟨hh, _⟩
      rw [List.length_append] at hh
      simpa using hh
    have hieq : i = S.length := by omega
    have hte : t = e := by
      subst hieq
      rw [List.get?_append_right hle] at hget
      simp at hget
      exact hget.symm
    subst hte
    rcases mem_skelNames.mp (he p hp) with ⟨u, hu, hun⟩
    rcases List.get?_of_mem hu with ⟨q, hq⟩
    have hqlt : q < S.length := by
      rcases List.get?_eq_some.mp hq with ⟨hh, _⟩
      exact hh
    refine ⟨q, u, by omega, ?_, hun⟩
    rw [List.get?_append hqlt]
    exact hq

theorem SkelWF_append {bodies : BodyMap} {S : List SkelEntry} {e : SkelEntry}
    (hwf : SkelWF bodies S) (hnew : e.bodyName ∉ skelNames S)
    (hbody : mfind bodies e.bodyName = some e.body) :
    SkelWF bodies (S ++ [e]) := by
  constructor
  · rw [skelNames_append]
    apply List.Nodup.append hwf.1 (List.nodup_singleton _)
    intro a ha hb
    rw [List.mem_singleton] at hb
    subst hb
    exact hnew ha
  · intro t ht
    rcases List.mem_append.mp ht with h1 | h2
    · exact hwf.2 t h1
    · rw [List.mem_singleton] at h2
      subst h2
      exact hbody

/-- A registry with distinct keys whose erase at a member key is empty
is that singleton. -/
theorem merase_eq_nil {m : JointMap} {k : String} {j : SDFJoint}
    (hnd : (m.map Prod.fst).Nodup) (hmem : (k, j) ∈ m)
    (hnil : merase m k = []) : m = [(k, j)] := by
  have hall : ∀ e ∈ m, e.1 = k := by
    intro e he
    by_contra hne
    have : e ∈ merase m k := mem_merase_of_ne he hne
    rw [hnil] at this
    cases this
  cases m with
  | nil => cases hmem
  | cons x rest =>
    cases rest with
    | nil =>
      rcases List.mem_singleton.mp hmem with h
      rw [h]
    | cons y rest2 =>
      exfalso
      rw [List.map_cons, List.map_cons, List.nodup_cons] at hnd
      apply hnd.1
      rw [hall y (List.mem_cons_of_mem _ (List.mem_cons_self _ _)),
        hall x (List.mem_cons_self _ _)]
      exact List.mem_cons_self _ _

/-- Distinct keys make the keyed record unique. -/
theorem key_unique {m : JointMap} {k : String} {a b : SDFJoint}
    (hnd : (m.map Prod.fst).Nodup) (ha : (k, a) ∈ m) (hb : (k, b) ∈ m) :
    a = b := by
  induction m with
  | nil => cases ha
  | cons x rest ih =>
    rw [List.map_cons, List.nodup_cons] at hnd
    rcases List.mem_cons.mp ha with ha1 | ha2 <;>
      rcases List.mem_cons.mp hb with hb1 | hb2
    · rw [← ha1] at hb1
      exact (Prod.mk.injEq _ _ _ _).mp ((hb1.symm).trans rfl) |>.2.symm ▸ rfl
    · exfalso
      apply hnd.1
      rw [← ha1]
      exact List.mem_map.mpr ⟨(k, b), hb2, rfl⟩
    · exfalso
      apply hnd.1
      rw [← hb1]
      exact List.mem_map.mpr ⟨(k, a), ha2, rfl⟩
    · exact ih hnd.2 ha2 hb2

theorem mem_merase_keys {m : JointMap} {c k : String}
    (hc : c ∈ m.map Prod.fst) (hne : c ≠ k) :
    c ∈ (merase m k).map Prod.fst := by
  rcases List.mem_map.mp hc with ⟨x, hx, hxc⟩
  exact List.mem_map.mpr ⟨x, mem_merase_of_ne hx (by rw [hxc]; exact hne), hxc⟩

theorem name_ne_of_nodup_middle {S T : List SkelEntry} {ent t : SkelEntry}
    (hnd : (skelNames (S ++ ent :: T)).Nodup) (ht : t ∈ T) :
    t.bodyName ≠ ent.bodyName := by
  rw [skelNames, List.map_append, List.map_cons] at hnd
  have h2 := (List.nodup_append.mp hnd).2.1
  rw [List.nodup_cons] at h2
  intro heq
  exact h2.1 (heq ▸ List.mem_map.mpr ⟨t, ht, rfl⟩)

/-- Main invariant of the assembly loop: whatever the loop appends to a
well-formed state is a sequence of pairs that are either materialized
registry entries or synthesized free roots for unclaimed links, the
skeleton keeps distinct names consistent with the link registry,
parents are always created before children, and a completed run has
materialized every pending registry entry. -/
theorem runLoop_spec (bodies : BodyMap) (hb : BodiesWF bodies) :
    ∀ (fuel : Nat) (P : JointMap) (e : String × SDFJoint) (S : List SkelEntry)
      (ds : List Diag) (flag : Bool) (S2 : List SkelEntry) (ds2 : List Diag),
      RegWF P → SkelWF bodies S → Fresh P S → e ∈ P → ParentBefore S →
      runLoop bodies fuel P e S ds = some (flag, S2, ds2) →
      ∃ T, S2 = S ++ T ∧
        SkelWF bodies S2 ∧ ParentBefore S2 ∧
        (∀ t ∈ T,
          (∃ cj ∈ P, t.bodyName = cj.1 ∧ regEntry t cj.2) ∨
          (∃ b, mfind bodies t.bodyName = some b ∧ t = rootEntryOf b ∧
            t.bodyName ∉ P.map Prod.fst)) ∧
        (flag = true → ∀ cj ∈ P, ∃ t ∈ T, t.bodyName = cj.1 ∧ regEntry t cj.2) := by
  intro fuel
  induction fuel with
  | zero =>
    intro P e S ds flag S2 ds2 _ _ _ _ _ hrun
    rw [runLoop] at hrun
    cases hrun
  | succ fuel ih =>
    intro P e S ds flag S2 ds2 hreg hskel hfresh hmem hpb hrun
    rw [runLoop] at hrun
    cases hnext : getNextJointAndNodePair bodies P S e.2 with
    | brk d =>
      rw [hnext] at hrun
      cases Option.some.inj hrun
      refine ⟨[], (List.append_nil S).symm, hskel, hpb, ?_, ?_⟩
      · intro t ht; cases ht
      · intro hflag; cases hflag
    | cont entry =>
      rw [hnext] at hrun
      obtain ⟨he1, he2⟩ := getNext_cont hnext
      have hentrymem : entry ∈ P := by
        have hm := mfind_mem he2
        rw [← he1] at hm
        rw [← prod_eta entry]
        exact hm
      exact ih P entry S ds flag S2 ds2 hreg hskel hfresh hentrymem hpb hrun
    | createFreeRoot =>
      obtain ⟨hgbn, hw, hne, hpnone, ⟨b, hpbf⟩, ⟨c, hcbf⟩⟩ :=
        getNext_createFreeRoot hnext
      simp only [hnext, hpbf] at hrun
      cases hcp : createPair S none (freeRootJoint b) b with
      | error d =>
        simp only [hcp] at hrun
        cases Option.some.inj hrun
        refine ⟨[], (List.append_nil S).symm, hskel, hpb, ?_, ?_⟩
        · intro t ht; cases ht
        · intro hflag; cases hflag
      | ok Sr =>
        simp only [hcp] at hrun
        have hSr := createPair_root_ok hcp
        have hbname : b.properties.name = e.2.parentName :=
          hb.2 _ (mfind_mem hpbf)
        have hnotin : e.2.parentName ∉ skelNames S := getBodyNode_none_iff.mp hgbn
        have hrname : (rootEntryOf b).bodyName = e.2.parentName := by
          rw [rootEntryOf]
          exact hbname
        have hskel2 : SkelWF bodies (S ++ [rootEntryOf b]) := by
          apply SkelWF_append hskel
          · rw [hrname]; exact hnotin
          · rw [hrname]
            exact hpbf
        have hfresh2 : Fresh P (S ++ [rootEntryOf b]) := by
          intro ck hck
          rw [skelNames_append]
          intro hmem2
          rcases List.mem_append.mp hmem2 with h1 | h2
          · exact hfresh ck hck h1
          · rw [List.mem_singleton] at h2
            rw [h2, hrname] at hck
            rcases List.mem_map.mp hck with ⟨x, hx, hxc⟩
            have := mfind_isSome_of_mem (hxc ▸ (prod_eta x).symm ▸ hx)
            rw [hpnone] at this
            cases this
        have hpb3 : ParentBefore (S ++ [rootEntryOf b]) := by
          apply ParentBefore_append hpb
          intro p hp
          rw [rootEntryOf] at hp
          cases hp
        rw [hSr] at hrun
        rcases ih P e (S ++ [rootEntryOf b]) ds flag S2 ds2 hreg hskel2
            hfresh2 hmem hpb3 hrun with ⟨T, hT, hwf2, hpb4, hprov, hcons⟩
        refine ⟨rootEntryOf b :: T, ?_, hwf2, hpb4, ?_, ?_⟩
        · rw [hT, List.append_assoc]
          rfl
        · intro t ht
          rcases List.mem_cons.mp ht with ht1 | ht2
          · subst ht1
            right
            refine ⟨b, ?_, rfl, ?_⟩
            · rw [hrname]; exact hpbf
            · rw [hrname]
              intro hk
              rcases List.mem_map.mp hk with ⟨x, hx, hxc⟩
              have := mfind_isSome_of_mem
                (hxc ▸ (prod_eta x).symm ▸ hx)
              rw [hpnone] at this
              cases this
          · exact hprov t ht2
        · intro hflag cj hcj
          rcases hcons hflag cj hcj with ⟨t, ht, h1, h2⟩
          exact ⟨t, List.mem_cons_of_mem _ ht, h1, h2⟩
    | valid par child =>
      simp only [hnext] at hrun
      obtain ⟨hpar, hchild, hparnone⟩ := getNext_valid hnext
      cases hcp : createPair S par e.2 child with
      | error d =>
        simp only [hcp] at hrun
        cases Option.some.inj hrun
        refine ⟨[], (List.append_nil S).symm, hskel, hpb, ?_, ?_⟩
        · intro t ht; cases ht
        · intro hflag; cases hflag
      | ok Sr =>
        simp only [hcp] at hrun
        have hSr := createPair_ok hcp
        have hcname : child.properties.name = e.2.childName :=
          hb.2 _ (mfind_mem hchild)
        have hkey : e.1 = e.2.childName := hreg.2 e hmem
        have hkeys : e.1 ∈ P.map Prod.fst := List.mem_map.mpr ⟨e, hmem, rfl⟩
        refine ?_
        set ent : SkelEntry :=
          { bodyName := child.properties.name,
            soft := decide (child.type = "soft"), body := child,
            jointName := e.2.properties.name, jointType := e.2.type,
            jointTParent := e.2.properties.tParentBodyToJoint,
            jointTChild := e.2.properties.tChildBodyToJoint,
            parent := par } with hent
        have hentname : ent.bodyName = e.1 := by
          rw [hent]
          rw [hcname, hkey]
        have hreg_ent : regEntry ent e.2 := by
          refine ⟨rfl, rfl, hcname, rfl, rfl, ?_⟩
          cases hgb : getBodyNode S e.2.parentName with
          | some q =>
            left
            show par = some e.2.parentName
            rw [hpar, hgb, (getBodyNode_some hgb).1]
          | none =>
            right
            rw [hgb] at hpar
            exact ⟨hpar, hparnone hpar⟩
        have hparent_names : ∀ p, ent.parent = some p → p ∈ skelNames S := by
          intro p hp
          rw [hent] at hp
          rw [hpar] at hp
          obtain ⟨hq, hmemn⟩ := getBodyNode_some hp
          rw [hq]
          exact hmemn
        have hentfresh : ent.bodyName ∉ skelNames S := by
          rw [hentname]
          exact hfresh e.1 hkeys
        have hskel2 : SkelWF bodies (S ++ [ent]) := by
          apply SkelWF_append hskel hentfresh
          show mfind bodies ent.bodyName = some ent.body
          rw [hent]
          show mfind bodies child.properties.name = some child
          rw [hcname]
          exact hchild
        have hpb2 : ParentBefore (S ++ [ent]) :=
          ParentBefore_append hpb hparent_names
        cases herase : merase P e.1 with
        | nil =>
          simp only [herase] at hrun
          cases Option.some.inj hrun
          have hPsingle : P = [(e.1, e.2)] :=
            merase_eq_nil hreg.1 ((prod_eta e).symm ▸ hmem) herase
          refine ⟨[ent], hSr, hSr ▸ hskel2, hSr ▸ hpb2, ?_, ?_⟩
          · intro t ht
            rw [List.mem_singleton] at ht
            subst ht
            left
            exact ⟨e, hmem, hentname, hreg_ent⟩
          · intro _ cj hcj
            rw [hPsingle, List.mem_singleton] at hcj
            subst hcj
            exact ⟨ent, List.mem_singleton.mpr rfl, hentname, hreg_ent⟩
        | cons e' rest' =>
          simp only [herase] at hrun
          have hreg' : RegWF (e' :: rest') := by
            rw [← herase]
            exact ⟨merase_nodup_keys hreg.1,
              fun x hx => hreg.2 x (merase_subset hx)⟩
          have hfresh' : Fresh (e' :: rest') Sr := by
            rw [hSr, ← herase]
            intro ck hck
            obtain ⟨hckP, hckne⟩ := merase_keys_sub P e.1 ck hck
            rw [skelNames_append]
            intro hmem2
            rcases List.mem_append.mp hmem2 with h1 | h2
            · exact hfresh ck hckP h1
            · rw [List.mem_singleton] at h2
              rw [hentname] at h2
              exact hckne h2
          have hmem' : e' ∈ (e' :: rest') := List.mem_cons_self _ _
          have hskel2' : SkelWF bodies Sr := by rw [hSr]; exact hskel2
          have hpb2' : ParentBefore Sr := by rw [hSr]; exact hpb2
          rcases ih (e' :: rest') e' Sr ds flag S2 ds2 hreg' hskel2' hfresh'
              hmem' hpb2' hrun with ⟨T, hT, hwf2, hpb4, hprov, hcons⟩
          have hS2 : S2 = S ++ ent :: T := by
            rw [hT, hSr, List.append_assoc]
            rfl
          refine ⟨ent :: T, hS2, hwf2, hpb4, ?_, ?_⟩
          · intro t ht
            rcases List.mem_cons.mp ht with ht1 | ht2
            · subst ht1
              left
              exact ⟨e, hmem, hentname, hreg_ent⟩
            · rcases hprov t ht2 with ⟨cj, hcj, h1, h2⟩ | ⟨b2, hb2, ht2b, hnotk⟩
              · left
                refine ⟨cj, ?_, h1, h2⟩
                rw [← herase] at hcj
                exact merase_subset hcj
              · right
                refine ⟨b2, hb2, ht2b, ?_⟩
                intro hkP
                have htne : t.bodyName ≠ ent.bodyName := by
                  refine @name_ne_of_nodup_middle S T ent t ?_ ht2
                  rw [← hS2]
                  exact hwf2.1
                have : t.bodyName ∈ (merase P e.1).map Prod.fst := by
                  apply mem_merase_keys hkP
                  rw [← hentname]
                  exact htne
                rw [herase] at this
                exact hnotk this
          · intro hflag cj hcj
            by_cases hcjk : cj.1 = e.1
            · have hcjeq : (e.1, cj.2) = cj := by
                rw [← hcjk]
              have hcj2 : cj.2 = e.2 := by
                apply @key_unique P e.1 cj.2 e.2 hreg.1
                · rw [hcjeq]
                  exact hcj
                · exact (prod_eta e).symm ▸ hmem
              refine ⟨ent, List.mem_cons_self _ _, ?_, ?_⟩
              · rw [hentname, hcjk]
              · rw [hcj2]
                exact hreg_ent
            · have hcj' : cj ∈ merase P e.1 := mem_merase_of_ne hcj hcjk
              rw [herase] at hcj'
              rcases hcons hflag cj hcj' with ⟨t, ht, h1, h2⟩
              exact ⟨t, List.mem_cons_of_mem _ ht, h1, h2⟩

/-! ## Parent-before-child, orphan roots, missing-parent abort -/

theorem parent_in_names {S : List SkelEntry} (hpb : ParentBefore S)
    {t : SkelEntry} (ht : t ∈ S) {p : String} (hp : t.parent = some p) :
    p ∈ skelNames S := by
  rcases List.get?_of_mem ht with ⟨i, hi⟩
  rcases hpb i p t hi hp with ⟨jdx, t2, hlt, hg2, hn2⟩
  exact mem_skelNames.mpr ⟨t2, List.get?_mem hg2, hn2⟩

theorem filter_name_singleton {S : List SkelEntry} {p : String} {t : SkelEntry}
    (hnd : (skelNames S).Nodup) (ht : t ∈ S) (htn : t.bodyName = p) :
    S.filter (fun u => u.bodyName == p) = [t] := by
  induction S with
  | nil => cases ht
  | cons u rest ih =>
    rw [skelNames, List.map_cons, List.nodup_cons] at hnd
    rw [List.filter_cons]
    by_cases hu : u.bodyName = p
    · have hut : u = t := by
        rcases List.mem_cons.mp ht with h1 | h2
        · exact h1.symm
        · exfalso
          apply hnd.1
          rw [hu, ← htn]
          exact List.mem_map.mpr ⟨t, h2, rfl⟩
      have hd : (u.bodyName == p) = true := beq_iff_eq.mpr hu
      rw [hd]
      simp only [if_true]
      rw [hut]
      have hrest : rest.filter (fun v => v.bodyName == p) = [] := by
        apply List.filter_eq_nil.mpr
        intro v hv
        simp only [beq_iff_eq]
        intro hvp
        apply hnd.1
        rw [hu, ← hvp]
        exact List.mem_map.mpr ⟨v, hv, rfl⟩
      rw [hrest]
    · have hd : (u.bodyName == p) = false :=
        beq_false_of_ne hu
      rw [hd]
      simp only [Bool.false_eq_true, if_false]
      apply ih hnd.2
      rcases List.mem_cons.mp ht with h1 | h2
      · exfalso; rw [h1] at htn; exact hu (htn ▸ rfl)
      · exact h2

/-- C4: for every assembly (completed or aborted), every joint/body
pair whose joint has a parent BodyNode was created after that parent:
the parent body appears strictly earlier in the creation order of the
output skeleton. -/
theorem parent_before_child (fuel : Nat) (m : ModelX) (flag : Bool)
    (S : List SkelEntry) (ds : List Diag)
    (h : readSkeletonElem fuel m = some (flag, S, ds)) :
    ParentBefore S := by
  simp only [readSkeletonElem] at h
  cases haj : readAllJoints m.joints (modelFrame m)
      (readAllBodyNodes m.links (modelFrame m)).1 with
  | none =>
    rw [haj] at h
    cases h
  | some pr =>
    obtain ⟨sdfJoints, ds2⟩ := pr
    simp only [haj] at h
    cases sdfJoints with
    | nil =>
      simp only at h
      cases Option.some.inj h
      intro i p t hget hp
      rw [List.get?_nil] at hget
      cases hget
    | cons e rest =>
      simp only at h
      have hb := readAllBodyNodes_wf m.links (modelFrame m)
      have hreg := readAllJoints_wf m.joints (modelFrame m)
        (readAllBodyNodes m.links (modelFrame m)).1 (e :: rest) ds2 haj
      have hskel0 : SkelWF (readAllBodyNodes m.links (modelFrame m)).1 [] :=
        ⟨List.nodup_nil, by intro x hx; cases hx⟩
      have hfresh0 : Fresh (e :: rest) [] := by
        intro c hc hcn
        rw [skelNames] at hcn
        cases hcn
      have hpb0 : ParentBefore [] := by
        intro i p t hget hp
        rw [List.get?_nil] at hget
        cases hget
      rcases runLoop_spec (readAllBodyNodes m.links (modelFrame m)).1 hb fuel
          (e :: rest) e [] _ flag S ds hreg hskel0 hfresh0
          (List.mem_cons_self _ _) hpb0 h
        with ⟨T, hT, hwf, hpb, hprov, hcons⟩
      exact hpb

/-- Witness for C4 on the chain scenario model. -/
theorem parent_before_child_witness : ParentBefore chainSkel :=
  parent_before_child 20 mdlChain true chainSkel [] (by rfl)

/-- C3: in a completed assembly, a link referenced as a parent but
never claimed as a child (and not the world or empty sentinel) appears
in the skeleton exactly once, attached by the synthesized Free joint
named root whose transform is the link initial transform, with no
parent body. -/
theorem orphan_free_root (bodies : BodyMap) (P : JointMap)
    (e0 : String × SDFJoint) (fuel : Nat) (ds0 ds : List Diag)
    (S : List SkelEntry) (p : String) (cj : String × SDFJoint)
    (bp : SDFBodyNode)
    (hb : BodiesWF bodies) (hreg : RegWF P) (hmem : e0 ∈ P)
    (hrun : runLoop bodies fuel P e0 [] ds0 = some (true, S, ds))
    (hcj : cj ∈ P) (href : cj.2.parentName = p)
    (hnotchild : p ∉ P.map Prod.fst)
    (hbp : mfind bodies p = some bp)
    (hw : p ≠ "world") (hne : p ≠ "") :
    S.filter (fun t => t.bodyName == p) = [rootEntryOf bp] := by
  have hskel0 : SkelWF bodies [] := ⟨List.nodup_nil, by intro x hx; cases hx⟩
  have hfresh0 : Fresh P [] := by
    intro c hc hcn
    rw [skelNames] at hcn
    cases hcn
  have hpb0 : ParentBefore [] := by
    intro i p' t hget hp
    rw [List.get?_nil] at hget
    cases hget
  rcases runLoop_spec bodies hb fuel P e0 [] ds0 true S ds hreg hskel0
      hfresh0 hmem hpb0 hrun with ⟨T, hT, hwf, hpb, hprov, hcons⟩
  rw [List.nil_append] at hT
  subst hT
  rcases hcons rfl cj hcj with ⟨t, htT, htn, hregE⟩
  have hparent : t.parent = some p := by
    rcases hregE.2.2.2.2.2 with h1 | ⟨h2a, h2b⟩
    · rw [h1, href]
    · exfalso
      rcases h2b with hb1 | hb2
      · rw [href] at hb1
        exact hw hb1
      · rw [href] at hb2
        exact hne hb2
  have hpmem : p ∈ skelNames S := parent_in_names hpb htT hparent
  rcases mem_skelNames.mp hpmem with ⟨ep, hep, hepn⟩
  rcases hprov ep hep with ⟨cj2, hcj2, hn2, _⟩ | ⟨b2, hb2, hroot2, hnk2⟩
  · exfalso
    apply hnotchild
    rw [← hepn, hn2]
    exact List.mem_map.mpr ⟨cj2, hcj2, rfl⟩
  · have hb2p : b2 = bp := by
      rw [hepn] at hb2
      rw [hb2] at hbp
      exact Option.some.inj hbp
    rw [hb2p] at hroot2
    rw [← hroot2]
    exact filter_name_singleton hwf.1 hep hepn

/-- Witness for C3: in the chain registry, link A is referenced as the
parent of J1 but claimed by no joint, and the completed skeleton holds
exactly one free root pair for it. -/
theorem orphan_free_root_witness :
    regChainSkel.filter (fun t => t.bodyName == "A") =
      [rootEntryOf (bodyOf "A")] :=
  orphan_free_root bodiesABC regChain ("B", ballJointR "J1" "A" "B") 20 [] []
    regChainSkel "A" ("B", ballJointR "J1" "A" "B") (bodyOf "A")
    ⟨by decide, by decide⟩ ⟨by decide, by decide⟩ (by decide) (by rfl)
    (by decide) rfl (by decide) (by rfl) (by decide) (by decide)

/-- C1 (amended): a registry containing a joint whose parent name is
neither the world sentinel nor empty and matches no link and no
pending child never completes: every terminating run of the assembly
loop reports failure (but the partially built skeleton is what the
caller receives, as the counterexample shows). -/
theorem missing_parent_never_completes (bodies : BodyMap) (P : JointMap)
    (cj : String × SDFJoint)
    (hb : BodiesWF bodies) (hreg : RegWF P) (hcj : cj ∈ P)
    (hw : cj.2.parentName ≠ "world") (hne : cj.2.parentName ≠ "")
    (hnb : mfind bodies cj.2.parentName = none)
    (hnp : cj.2.parentName ∉ P.map Prod.fst) :
    ∀ fuel e0 ds0 flag S ds, e0 ∈ P →
      runLoop bodies fuel P e0 [] ds0 = some (flag, S, ds) → flag = false := by
  intro fuel e0 ds0 flag S ds hmem hrun
  cases flag with
  | false => rfl
  | true =>
    exfalso
    have hskel0 : SkelWF bodies [] := ⟨List.nodup_nil, by intro x hx; cases hx⟩
    have hfresh0 : Fresh P [] := by
      intro c hc hcn
      rw [skelNames] at hcn
      cases hcn
    have hpb0 : ParentBefore [] := by
      intro i p' t hget hp
      rw [List.get?_nil] at hget
      cases hget
    rcases runLoop_spec bodies hb fuel P e0 [] ds0 true S ds hreg hskel0
        hfresh0 hmem hpb0 hrun with ⟨T, hT, hwf, hpb, hprov, hcons⟩
    rw [List.nil_append] at hT
    subst hT
    rcases hcons rfl cj hcj with ⟨t, htT, htn, hregE⟩
    have hparent : t.parent = some cj.2.parentName := by
      rcases hregE.2.2.2.2.2 with h1 | ⟨h2a, h2b⟩
      · exact h1
      · exfalso
        rcases h2b with hb1 | hb2
        · exact hw hb1
        · exact hne hb2
    have hpmem : cj.2.parentName ∈ skelNames S :=
      parent_in_names hpb htT hparent
    rcases mem_skelNames.mp hpmem with ⟨ep, hep, hepn⟩
    have := hwf.2 ep hep
    rw [hepn, hnb] at this
    cases this

/-- Witness for C1 (amended) at the concrete registry with the
unresolvable joint Jx. -/
theorem missing_parent_never_completes_witness :
    runLoop bodiesABC 9 regMissingParent ("B", ballJointR "J1" "A" "B") [] [] ≠
      some (true, [], []) := by
  intro hcontra
  have hfalse := missing_parent_never_completes bodiesABC regMissingParent
    ("C", ballJointR "Jx" "nope" "C") ⟨by decide, by decide⟩
    ⟨by decide, by decide⟩ (by decide)
    (by decide) (by decide) (by rfl) (by decide)
    9 ("B", ballJointR "J1" "A" "B") [] true [] [] (by decide) hcontra
  cases hfalse

/-- Counterexample for C1 as stated: on a registry whose second entry
names the nonexistent parent nope, the assembly loop stops with the
failure flag but the returned skeleton holds the two pairs built
before the error, not zero BodyNodes. -/
theorem missing_parent_partial_output :
    (runLoop bodiesABC 9 regMissingParent ("B", ballJointR "J1" "A" "B") []
        []).map (fun r => (r.1, r.2.1.length)) = some (false, 2) := by rfl

/-! ## Termination on acyclic inputs -/

theorem merase_length_lt {m : JointMap} {k : String} {v : SDFJoint}
    (h : (k, v) ∈ m) : (merase m k).length < m.length := by
  rw [merase]
  apply List.length_filter_lt_length_iff_exists.mpr
  exact ⟨(k, v), h, by simp⟩

/-- Auxiliary induction for termination: with a rank function that
decreases along redirection, the loop reaches a result before running
out of fuel, by lexicographic descent on (registry size, twice the
rank of the current key plus one when a root synthesis is due). -/
theorem runLoop_term_aux (bodies : BodyMap) (hb : BodiesWF bodies)
    (rank : String → Nat) :
    ∀ n : Nat, ∀ P : JointMap, P.length ≤ n →
      (∀ e ∈ P, (mfind P e.2.parentName).isSome = true →
        rank e.2.parentName < rank e.1) →
      ∀ m : Nat, ∀ (e0 : String × SDFJoint) (S : List SkelEntry)
        (ds : List Diag),
        e0 ∈ P →
        2 * rank e0.1 +
          (match getNextJointAndNodePair bodies P S e0.2 with
           | NextResult.createFreeRoot => 1
           | _ => 0) ≤ m →
        ∃ fuel, runLoop bodies fuel P e0 S ds ≠ none := by
  intro n
  induction n with
  | zero =>
    intro P hlen hrk m e0 S ds hmem hmeas
    exfalso
    cases P with
    | nil => cases hmem
    | cons x rest => simp at hlen
  | succ n ihn =>
    intro P hlen hrk m
    induction m using Nat.strong_induction_on with
    | _ m ihm =>
      intro e0 S ds hmem hmeas
      cases hnext : getNextJointAndNodePair bodies P S e0.2 with
      | brk d =>
        refine ⟨1, ?_⟩
        rw [runLoop]
        simp only [hnext]
        simp
      | cont entry =>
        obtain ⟨he1, he2⟩ := getNext_cont hnext
        have hmem' : entry ∈ P := by
          have hm := mfind_mem he2
          rw [← he1] at hm
          rw [← prod_eta entry]
          exact hm
        have hlt : rank entry.1 < rank e0.1 := by
          rw [he1]
          apply hrk e0 hmem
          rw [he2]
          rfl
        simp only [hnext] at hmeas
        have hle1 : (match getNextJointAndNodePair bodies P S entry.2 with
            | NextResult.createFreeRoot => 1
            | _ => 0) ≤ 1 := by
          cases getNextJointAndNodePair bodies P S entry.2 <;> simp
        have hm' : 2 * rank entry.1 +
            (match getNextJointAndNodePair bodies P S entry.2 with
             | NextResult.createFreeRoot => 1
             | _ => 0) < m := by omega
        rcases ihm _ hm' entry S ds hmem' (le_refl _) with ⟨fuel, hf⟩
        refine ⟨fuel + 1, ?_⟩
        rw [runLoop]
        simp only [hnext]
        exact hf
      | createFreeRoot =>
        obtain ⟨hgbn, hw, hne, hpnone, ⟨b, hpbf⟩, ⟨c, hcbf⟩⟩ :=
          getNext_createFreeRoot hnext
        simp only [hnext] at hmeas
        cases hcp : createPair S none (freeRootJoint b) b with
        | error d =>
          refine ⟨1, ?_⟩
          rw [runLoop]
          simp only [hnext, hpbf, hcp]
          simp
        | ok S2 =>
          have hS2 := createPair_root_ok hcp
          have hbname : b.properties.name = e0.2.parentName :=
            hb.2 _ (mfind_mem hpbf)
          have hg2 : getBodyNode S2 e0.2.parentName = some e0.2.parentName := by
            apply getBodyNode_of_mem
            rw [hS2, skelNames_append]
            apply List.mem_append_right
            rw [List.mem_singleton]
            show e0.2.parentName = (rootEntryOf b).bodyName
            show e0.2.parentName = b.properties.name
            exact hbname.symm
          have hflag0 : (match getNextJointAndNodePair bodies P S2 e0.2 with
              | NextResult.createFreeRoot => 1
              | _ => 0) = 0 := by
            cases hnext2 : getNextJointAndNodePair bodies P S2 e0.2 with
            | createFreeRoot =>
              exfalso
              obtain ⟨hgbn2, _, _, _, _, _⟩ := getNext_createFreeRoot hnext2
              rw [hg2] at hgbn2
              cases hgbn2
            | brk d => rfl
            | cont entry => rfl
            | valid par child => rfl
          have hm' : 2 * rank e0.1 +
              (match getNextJointAndNodePair bodies P S2 e0.2 with
               | NextResult.createFreeRoot => 1
               | _ => 0) < m := by
            rw [hflag0]
            omega
          rcases ihm _ hm' e0 S2 ds hmem (le_refl _) with ⟨fuel, hf⟩
          refine ⟨fuel + 1, ?_⟩
          rw [runLoop]
          simp only [hnext, hpbf, hcp]
          exact hf
      | valid par child =>
        cases hcp : createPair S par e0.2 child with
        | error d =>
          refine ⟨1, ?_⟩
          rw [runLoop]
          simp only [hnext, hcp]
          simp
        | ok S2 =>
          cases herase : merase P e0.1 with
          | nil =>
            refine ⟨1, ?_⟩
            rw [runLoop]
            simp only [hnext, hcp, herase]
            simp
          | cons e' rest' =>
            have hlenm : (merase P e0.1).length < P.length :=
              merase_length_lt ((prod_eta e0).symm ▸ hmem)
            have hlen' : (e' :: rest').length ≤ n := by
              rw [← herase]
              omega
            have hrk' : ∀ x ∈ (e' :: rest'),
                (mfind (e' :: rest') x.2.parentName).isSome = true →
                rank x.2.parentName < rank x.1 := by
              rw [← herase]
              intro x hx hsome
              apply hrk x (merase_subset hx)
              rw [mfind_merase] at hsome
              by_cases hq : x.2.parentName = e0.1
              · rw [if_pos hq] at hsome
                cases hsome
              · rw [if_neg hq] at hsome
                exact hsome
            rcases ihn (e' :: rest') hlen' hrk'
                (2 * rank e'.1 + 1) e' S2 ds (List.mem_cons_self _ _)
                (by
                  have hle1 : (match getNextJointAndNodePair bodies
                      (e' :: rest') S2 e'.2 with
                    | NextResult.createFreeRoot => 1
                    | _ => 0) ≤ 1 := by
                    cases getNextJointAndNodePair bodies (e' :: rest') S2 e'.2
                      <;> simp
                  omega) with ⟨fuel, hf⟩
            refine ⟨fuel + 1, ?_⟩
            rw [runLoop]
            simp only [hnext, hcp, herase]
            exact hf

/-- C6: for every acyclic pending registry (witnessed by a rank
function that strictly decreases along one redirection step), the
assembly loop terminates: some finite fuel suffices for the loop to
return a result instead of running out, because every iteration either
redirects down the rank, synthesizes a root that resolves the current
parent, aborts, or erases one registry entry. -/
theorem acyclic_assembly_terminates (bodies : BodyMap) (P : JointMap)
    (e0 : String × SDFJoint) (S : List SkelEntry) (ds : List Diag)
    (hb : BodiesWF bodies) (hacyc : Acyclic P) (hmem : e0 ∈ P) :
    ∃ fuel, runLoop bodies fuel P e0 S ds ≠ none := by
  rcases hacyc with ⟨rank, hrank⟩
  apply runLoop_term_aux bodies hb rank P.length P (le_refl _) hrank
    (2 * rank e0.1 + 1) e0 S ds hmem
  have hle1 : (match getNextJointAndNodePair bodies P S e0.2 with
      | NextResult.createFreeRoot => 1
      | _ => 0) ≤ 1 := by
    cases getNextJointAndNodePair bodies P S e0.2 <;> simp
  omega

/-- Witness for C6 on the acyclic chain registry. -/
theorem acyclic_assembly_terminates_witness :
    ∃ fuel, runLoop bodiesABC fuel regChain ("B", ballJointR "J1" "A" "B")
      [] [] ≠ none :=
  acyclic_assembly_terminates bodiesABC regChain
    ("B", ballJointR "J1" "A" "B") [] [] ⟨by decide, by decide⟩
    ⟨rankChain, by decide⟩ (by decide)
